import Mathlib

/-!
# Gap closing in `SlicerLayer` (src/slicer.h)

A shallow embedding of `SlicerLayer::findPolygonPointClosestTo` and
`SlicerLayer::findPolygonGapCloser`, followed by theorems about them.

Conventions of the embedding
* `Point` coordinates, `int64_t` lengths and `int` indices are unbounded `Int`;
  `unsigned int` indices are `Nat`.  Coordinates are micron-scale, so no
  arithmetic of the two functions is assumed to leave the 64-bit range.
* A run that would read a vector out of range, divide by zero or loop forever
  is an `Except.error` carrying the `Fault`; every read and every division of
  the source is checked.
* Fields the source leaves uninitialised are zero.
-/

namespace cura

/-! ## Points and their arithmetic (utils/intpoint.h, not part of src/) -/

/-- Modelled from the spec: the fixed-point 2D point type of utils/intpoint.h,
an exact-integer coordinate pair. -/
structure Point where
  X : Int
  Y : Int
deriving DecidableEq, Repr, Inhabited

/-- Modelled from the spec: vector addition of utils/intpoint.h (`operator+`). -/
instance : Add Point := ⟨fun p0 p1 => ⟨p0.X + p1.X, p0.Y + p1.Y⟩⟩

/-- Modelled from the spec: vector subtraction of utils/intpoint.h (`operator-`). -/
instance : Sub Point := ⟨fun p0 p1 => ⟨p0.X - p1.X, p0.Y - p1.Y⟩⟩

/-- Modelled from the spec: scaling of utils/intpoint.h (`operator*` by an integer). -/
def Point.scale (p0 : Point) (i : Int) : Point := ⟨p0.X * i, p0.Y * i⟩

/-- What can go wrong in a run of the source. -/
inductive Fault where
  | indexOutOfRange
  | divisionByZero
  | nonTermination
deriving DecidableEq, Repr

deriving instance DecidableEq for Except

/-- Integer division of C++: truncation toward zero, undefined for a zero divisor. -/
def cdiv (a b : Int) : Except Fault Int :=
  if b = 0 then .error .divisionByZero else .ok (a.tdiv b)

/-- Modelled from the spec: scaling down of utils/intpoint.h (`operator/` by an
integer), coordinate-wise C++ division. -/
def Point.divide (p0 : Point) (i : Int) : Except Fault Point :=
  if i = 0 then .error .divisionByZero else .ok ⟨p0.X.tdiv i, p0.Y.tdiv i⟩

/-- Modelled from the spec: dot product of utils/intpoint.h. -/
def dot (p0 p1 : Point) : Int := p0.X * p1.X + p0.Y * p1.Y

/-- Modelled from the spec: squared length of utils/intpoint.h (`vSize2`). -/
def vSize2 (p0 : Point) : Int := p0.X * p0.X + p0.Y * p0.Y

/-- Integer square root by halving: `isqrtFuel fuel n` is the floor of the
square root of `n` whenever `fuel` is at least the number of base-4 digits of `n`. -/
def isqrtFuel : Nat → Nat → Nat
  | 0, _ => 0
  | fuel + 1, n =>
    if n = 0 then 0
    else
      let r := 2 * isqrtFuel fuel (n / 4)
      if (r + 1) * (r + 1) ≤ n then r + 1 else r

/-- Floor of the square root of a natural number. -/
def isqrt (n : Nat) : Nat := isqrtFuel n n

/-- Modelled from the spec: integer length of a vector, utils/intpoint.h (`vSize`):
the square root of the squared length, truncated to an integer. -/
def vSize (p0 : Point) : Int := (isqrt (vSize2 p0).toNat : Nat)

/-- Modelled from the spec: `shorterThen p0 len` of utils/intpoint.h, whether the
vector `p0` is at most `len` long. -/
def shorterThen (p0 : Point) (len : Int) : Bool := decide (vSize2 p0 ≤ len * len)

/-! ## Results (slicer.h, lines 21-37) -/

/-- The result of trying to find a point on a closed polygon line: the point of
the connection, the polygon index and the point index.  The line on which the
point lies is between `pointIdx - 1` and `pointIdx`. -/
structure ClosePolygonResult where
  intersectionPoint : Point
  polygonIdx : Int
  pointIdx : Nat
deriving DecidableEq, Repr

/-- Result of `findPolygonGapCloser`. -/
structure GapCloserResult where
  len : Int
  polygonIdx : Int
  pointIdxA : Nat
  pointIdxB : Nat
  AtoB : Bool
deriving DecidableEq, Repr

/-- A layer's closed polygons (`Polygons polygonList`). -/
abbrev Polygons := List (List Point)

/-- Checked read `polygonList[n]`. -/
def readPolygon (polygonList : Polygons) (n : Nat) : Except Fault (List Point) :=
  match polygonList.get? n with
  | some poly => .ok poly
  | none => .error .indexOutOfRange

/-- Checked read `poly[i]`. -/
def readPoint (poly : List Point) (i : Nat) : Except Fault Point :=
  match poly.get? i with
  | some p => .ok p
  | none => .error .indexOutOfRange

/-! ## `findPolygonPointClosestTo` (slicer.h, lines 105-138) -/

/-- Body of the inner loop (lines 116-132) for the edge from `p0` to `p1`:
`some q` when the edge is accepted with connection point `q`. -/
def edgeTest (input p0 p1 : Point) : Except Fault (Option Point) :=
  let pDiff := p1 - p0
  let lineLength := vSize pDiff
  if lineLength > 1 then
    match cdiv (dot pDiff (input - p0)) lineLength with
    | .error e => .error e
    | .ok distOnLine =>
      if distOnLine ≥ 0 ∧ distOnLine ≤ lineLength then
        match (pDiff.scale distOnLine).divide lineLength with
        | .error e => .error e
        | .ok d =>
          let q := p0 + d
          if shorterThen (q - input) 100 then .ok (some q) else .ok none
      else .ok none
  else .ok none

/-- Inner loop (lines 111-134) over the points `poly[i], poly[i+1], ...` still to
visit, `p0` being the point before them. -/
def scanEdges (input : Point) (n : Nat) : Point → List Point → Nat →
    Except Fault (Option ClosePolygonResult)
  | _, [], _ => .ok none
  | p0, p1 :: rest, i =>
    match edgeTest input p0 p1 with
    | .error e => .error e
    | .ok (some q) => .ok (some ⟨q, n, i⟩)
    | .ok none => scanEdges input n p1 rest (i + 1)

/-- Outer loop (lines 108-135) over the polygons `polygonList[n], ...` still to
visit.  Line 110 reads the last point of the polygon before the inner loop. -/
def scanPolygons (input : Point) : Polygons → Nat →
    Except Fault (Option ClosePolygonResult)
  | [], _ => .ok none
  | poly :: rest, n =>
    match readPoint poly (poly.length - 1) with
    | .error e => .error e
    | .ok p0 =>
      match scanEdges input n p0 poly 0 with
      | .error e => .error e
      | .ok (some r) => .ok (some r)
      | .ok none => scanPolygons input rest (n + 1)

/-- `SlicerLayer::findPolygonPointClosestTo`: the first edge of the first polygon
on which `input` projects within tolerance, or `polygonIdx = -1`. -/
def findPolygonPointClosestTo (polygonList : Polygons) (input : Point) :
    Except Fault ClosePolygonResult :=
  match scanPolygons input polygonList 0 with
  | .error e => .error e
  | .ok (some r) => .ok r
  | .ok none => .ok ⟨⟨0, 0⟩, -1, 0⟩

/-! ## `findPolygonGapCloser` (slicer.h, lines 52-103) -/

/-- The vertex-walking loop of lines 75-80 and 85-90:
`for (i = start; i != stop; i = (i + 1) % size) { p1 = poly[i]; len += vSize(p0 - p1); p0 = p1; }`
run for at most `fuel` iterations; yields the final `p0` and `len`. -/
def walk (poly : List Point) (stop : Nat) : Nat → Nat → Point → Int →
    Except Fault (Point × Int)
  | 0, i, p0, len => if i = stop then .ok (p0, len) else .error .nonTermination
  | fuel + 1, i, p0, len =>
    if i = stop then .ok (p0, len)
    else
      match readPoint poly i with
      | .error e => .error e
      | .ok p1 => walk poly stop fuel ((i + 1) % poly.length) p1 (len + vSize (p0 - p1))

/-- Lines 73-81: the length `lenA` of the path from A to B. -/
def gapLenA (poly : List Point) (pointIdxA pointIdxB : Nat) (ip0 ip1 : Point) :
    Except Fault Int :=
  match readPoint poly pointIdxA with
  | .error e => .error e
  | .ok p0 =>
    match walk poly pointIdxB poly.length pointIdxA p0 (vSize (p0 - ip0)) with
    | .error e => .error e
    | .ok (p0, lenA) => .ok (lenA + vSize (p0 - ip1))

/-- Lines 83-91: the length `lenB` of the path from B to A. -/
def gapLenB (poly : List Point) (pointIdxA pointIdxB : Nat) (ip0 ip1 : Point) :
    Except Fault Int :=
  match readPoint poly pointIdxB with
  | .error e => .error e
  | .ok p0 =>
    match walk poly pointIdxA poly.length pointIdxB p0 (vSize (p0 - ip1)) with
    | .error e => .error e
    | .ok (p0, lenB) => .ok (lenB + vSize (p0 - ip0))

/-- Lines 62-102: the plan once both touch points are on polygon `polygonIdx`. -/
def gapCloserPlan (polygonList : Polygons) (polygonIdx : Int) (pointIdxA pointIdxB : Nat)
    (ip0 ip1 : Point) : Except Fault GapCloserResult :=
  if pointIdxA = pointIdxB then
    .ok ⟨vSize (ip0 - ip1), polygonIdx, pointIdxA, pointIdxB, true⟩
  else
    match readPolygon polygonList polygonIdx.toNat with
    | .error e => .error e
    | .ok poly =>
      match gapLenA poly pointIdxA pointIdxB ip0 ip1 with
      | .error e => .error e
      | .ok lenA =>
        match gapLenB poly pointIdxA pointIdxB ip0 ip1 with
        | .error e => .error e
        | .ok lenB =>
          if lenA < lenB then .ok ⟨lenA, polygonIdx, pointIdxA, pointIdxB, true⟩
          else .ok ⟨lenB, polygonIdx, pointIdxA, pointIdxB, false⟩

/-- `SlicerLayer::findPolygonGapCloser`. -/
def findPolygonGapCloser (polygonList : Polygons) (ip0 ip1 : Point) :
    Except Fault GapCloserResult :=
  match findPolygonPointClosestTo polygonList ip0 with
  | .error e => .error e
  | .ok c1 =>
    match findPolygonPointClosestTo polygonList ip1 with
    | .error e => .error e
    | .ok c2 =>
      if c1.polygonIdx < 0 ∨ c1.polygonIdx ≠ c2.polygonIdx then
        .ok ⟨-1, 0, 0, 0, false⟩
      else
        gapCloserPlan polygonList c1.polygonIdx c1.pointIdx c2.pointIdx ip0 ip1

/-! ## Vocabulary of the statements -/

/-- The projection parameter computed on line 120 for the edge from `p0` to `p1`. -/
def distOnLine (input p0 p1 : Point) : Int :=
  (dot (p1 - p0) (input - p0)).tdiv (vSize (p1 - p0))

/-- The connection point computed on line 123 for the edge from `p0` to `p1`. -/
def footPoint (input p0 p1 : Point) : Point :=
  p0 + ⟨((p1 - p0).X * distOnLine input p0 p1).tdiv (vSize (p1 - p0)),
        ((p1 - p0).Y * distOnLine input p0 p1).tdiv (vSize (p1 - p0))⟩

/-- The acceptance conditions of an edge from `p0` to `p1`: non-degenerate
(line 118), projection in range (line 121), projected point within tolerance
(line 124). -/
def edgeAccepts (input p0 p1 : Point) : Prop :=
  1 < vSize (p1 - p0) ∧
    (0 ≤ distOnLine input p0 p1 ∧ distOnLine input p0 p1 ≤ vSize (p1 - p0)) ∧
      vSize2 (footPoint input p0 p1 - input) ≤ 100 * 100

instance (input p0 p1 : Point) : Decidable (edgeAccepts input p0 p1) := by
  unfold edgeAccepts
  infer_instance

/-- The exact projection of `input` onto the line of the edge falls on the edge:
the exact parameter `dot(p1 - p0, input - p0) / |p1 - p0|` lies in `[0, |p1 - p0|]`.
Multiplied by `|p1 - p0| > 0` this is `0 <= dot <= |p1 - p0|^2`. -/
def projectsOntoEdge (input p0 p1 : Point) : Prop :=
  0 ≤ dot (p1 - p0) (input - p0) ∧ dot (p1 - p0) (input - p0) ≤ vSize2 (p1 - p0)

instance (input p0 p1 : Point) : Decidable (projectsOntoEdge input p0 p1) := by
  unfold projectsOntoEdge
  infer_instance

/-- The foot of the perpendicular from `input` onto the line of the edge, the point
`p0 + (dot / |p1 - p0|^2) (p1 - p0)`, lies strictly between `p0` and `p1`:
`0 < dot < |p1 - p0|^2`.  The foot is `p0` when `dot = 0` and `p1` when
`dot = |p1 - p0|^2`. -/
def projectsStrictlyInside (input p0 p1 : Point) : Prop :=
  0 < dot (p1 - p0) (input - p0) ∧ dot (p1 - p0) (input - p0) < vSize2 (p1 - p0)

instance (input p0 p1 : Point) : Decidable (projectsStrictlyInside input p0 p1) := by
  unfold projectsStrictlyInside
  infer_instance

/-- Start point of edge `i` of a polygon: its point `i - 1`, the last point
when `i = 0` (the wrap-around edge). -/
def edgeFrom (poly : List Point) (i : Nat) : Point :=
  poly.getD (if i = 0 then poly.length - 1 else i - 1) default

/-- End point of edge `i` of a polygon: its point `i`. -/
def edgeTo (poly : List Point) (i : Nat) : Point :=
  poly.getD i default

/-- Edge `(m, j)` comes before edge `(n, i)` in scan order. -/
def scansBefore (m j n i : Nat) : Prop := m < n ∨ (m = n ∧ j < i)

instance (m j n i : Nat) : Decidable (scansBefore m j n i) := by
  unfold scansBefore
  infer_instance

/-- A found result: `polygonIdx >= 0`. -/
def ClosePolygonResult.found (r : ClosePolygonResult) : Prop := 0 ≤ r.polygonIdx

instance (r : ClosePolygonResult) : Decidable r.found := by
  unfold ClosePolygonResult.found
  infer_instance

/-- Number of iterations of the walking loop from `i` to `stop` in a polygon of
`size` points. -/
def stepsTo (size i stop : Nat) : Nat :=
  if i ≤ stop then stop - i else stop + size - i

/-- The loop header of lines 75 and 85 alone,
`for (i = start; i != stop; i = (i + 1) % size)`: the successive values of `i` at
which the body runs, for at most `fuel` iterations. -/
def walkTrace (size stop : Nat) : Nat → Nat → Except Fault (List Nat)
  | 0, i => if i = stop then .ok [] else .error .nonTermination
  | fuel + 1, i =>
    if i = stop then .ok []
    else
      match walkTrace size stop fuel ((i + 1) % size) with
      | .error e => .error e
      | .ok tr => .ok (i :: tr)

/-- Sum of the distances between consecutive points of a chain. -/
def chainLen : List Point → Int
  | [] => 0
  | [_] => 0
  | p :: q :: rest => vSize (p - q) + chainLen (q :: rest)

/-- The `m` vertices `P[A], P[A+1], ...` of a polygon, indices taken modulo its size. -/
def arcVertices (poly : List Point) (A m : Nat) : List Point :=
  (List.range m).map (fun k => poly.getD ((A + k) % poly.length) default)

/-- Division that faults unless the divisor is greater than 1. -/
def strictDiv (a b : Int) : Except Fault Int :=
  if 1 < b then .ok (a.tdiv b) else .error .divisionByZero

/-- Coordinate-wise division that faults unless the divisor is greater than 1. -/
def Point.strictDivide (p0 : Point) (i : Int) : Except Fault Point :=
  if 1 < i then .ok ⟨p0.X.tdiv i, p0.Y.tdiv i⟩ else .error .divisionByZero

/-- The edge test of lines 116-132 again, run with the two divisions that fault on
every divisor that is not greater than 1. -/
def edgeTestStrict (input p0 p1 : Point) : Except Fault (Option Point) :=
  let pDiff := p1 - p0
  let lineLength := vSize pDiff
  if lineLength > 1 then
    match strictDiv (dot pDiff (input - p0)) lineLength with
    | .error e => .error e
    | .ok distOnLine =>
      if distOnLine ≥ 0 ∧ distOnLine ≤ lineLength then
        match (pDiff.scale distOnLine).strictDivide lineLength with
        | .error e => .error e
        | .ok d =>
          let q := p0 + d
          if shorterThen (q - input) 100 then .ok (some q) else .ok none
      else .ok none
  else .ok none

/-- A square of side 1000 used in examples. -/
def squarePoly : List Point := [⟨0, 0⟩, ⟨1000, 0⟩, ⟨1000, 1000⟩, ⟨0, 1000⟩]

/-- The layer holding the square only. -/
def square : Polygons := [squarePoly]

/-! ## The integer square root -/

theorem isqrtFuel_spec (fuel : Nat) : ∀ n : Nat, n < 4 ^ fuel →
    isqrtFuel fuel n * isqrtFuel fuel n ≤ n ∧
      n < (isqrtFuel fuel n + 1) * (isqrtFuel fuel n + 1) := by
  induction fuel with
  | zero =>
    intro n hn
    have : n = 0 := by simpa using hn
    subst this
    simp [isqrtFuel]
  | succ k ih =>
    intro n hn
    by_cases h0 : n = 0
    · subst h0
      simp [isqrtFuel]
    · have hq : n / 4 < 4 ^ k := by
        rw [pow_succ] at hn
        omega
      obtain ⟨hlo, hhi⟩ := ih (n / 4) hq
      have e : isqrtFuel (k + 1) n =
          if (2 * isqrtFuel k (n / 4) + 1) * (2 * isqrtFuel k (n / 4) + 1) ≤ n
          then 2 * isqrtFuel k (n / 4) + 1 else 2 * isqrtFuel k (n / 4) := by
        simp [isqrtFuel, h0]
      rw [e]
      generalize isqrtFuel k (n / 4) = s at hlo hhi
      have h1 : n / 4 * 4 ≤ n := Nat.div_mul_le_self n 4
      have h2 : n < (n / 4 + 1) * 4 := by omega
      split
      · rename_i hc
        refine ⟨hc, ?_⟩
        nlinarith
      · rename_i hc
        refine ⟨by nlinarith, by omega⟩

theorem isqrt_spec (n : Nat) : isqrt n * isqrt n ≤ n ∧ n < (isqrt n + 1) * (isqrt n + 1) :=
  isqrtFuel_spec n n (Nat.lt_pow_self (by decide) n)

theorem isqrt_eq_sqrt (n : Nat) : isqrt n = Nat.sqrt n :=
  Nat.eq_sqrt.2 (isqrt_spec n)

/-! ## Point arithmetic -/

@[simp] theorem Point.add_X (p0 p1 : Point) : (p0 + p1).X = p0.X + p1.X := rfl

@[simp] theorem Point.add_Y (p0 p1 : Point) : (p0 + p1).Y = p0.Y + p1.Y := rfl

@[simp] theorem Point.sub_X (p0 p1 : Point) : (p0 - p1).X = p0.X - p1.X := rfl

@[simp] theorem Point.sub_Y (p0 p1 : Point) : (p0 - p1).Y = p0.Y - p1.Y := rfl

/-! ## The edge test -/

theorem vSize_nonneg (p : Point) : 0 ≤ vSize p := by
  unfold vSize
  exact Int.ofNat_nonneg _

theorem edgeTest_eq (input p0 p1 : Point) :
    edgeTest input p0 p1 =
      .ok (if edgeAccepts input p0 p1 then some (footPoint input p0 p1) else none) := by
  unfold edgeTest edgeAccepts
  by_cases hL : 1 < vSize (p1 - p0)
  · have hne : vSize (p1 - p0) ≠ 0 := by omega
    simp only [gt_iff_lt, hL, if_true, cdiv, hne, if_false, Point.divide, true_and, ge_iff_le]
    by_cases hd : 0 ≤ distOnLine input p0 p1 ∧ distOnLine input p0 p1 ≤ vSize (p1 - p0)
    · have hd' := hd
      unfold distOnLine at hd'
      simp only [hd', hd, and_self, if_true, true_and]
      simp only [shorterThen, Point.scale, footPoint, distOnLine, decide_eq_true_eq]
      split <;> rfl
    · have hd' := hd
      unfold distOnLine at hd'
      simp only [hd', hd, if_false, false_and]
  · simp [hL]

/-! ## The inner loop -/

theorem scanEdges_ok (input : Point) (n : Nat) : ∀ (rest : List Point) (p0 : Point) (i : Nat),
    ∃ o, scanEdges input n p0 rest i = .ok o := by
  intro rest
  induction rest with
  | nil => intro p0 i; exact ⟨none, rfl⟩
  | cons p1 rest ih =>
    intro p0 i
    unfold scanEdges
    rw [edgeTest_eq]
    by_cases h : edgeAccepts input p0 p1
    · simp [h]
    · simpa [h] using ih p1 (i + 1)

theorem scanEdges_some (input : Point) (n : Nat) :
    ∀ (rest : List Point) (p0 : Point) (i : Nat) (r : ClosePolygonResult),
    scanEdges input n p0 rest i = .ok (some r) →
    ∃ k, k < rest.length ∧
      r = ⟨footPoint input ((p0 :: rest).getD k default) (rest.getD k default), n, i + k⟩ ∧
      edgeAccepts input ((p0 :: rest).getD k default) (rest.getD k default) ∧
      ∀ j, j < k → ¬ edgeAccepts input ((p0 :: rest).getD j default) (rest.getD j default) := by
  intro rest
  induction rest with
  | nil => intro p0 i r h; simp [scanEdges] at h
  | cons p1 rest ih =>
    intro p0 i r h
    unfold scanEdges at h
    rw [edgeTest_eq] at h
    by_cases hacc : edgeAccepts input p0 p1
    · simp only [hacc, if_true] at h
      refine ⟨0, by simp, ?_, by simpa using hacc, by simp⟩
      simp only [Except.ok.injEq, Option.some.injEq] at h
      simpa using h.symm
    · simp only [hacc, if_false] at h
      obtain ⟨k, hk, hr, ha, hfirst⟩ := ih p1 (i + 1) r h
      refine ⟨k + 1, by simpa using hk, ?_, by simpa using ha, ?_⟩
      · rw [hr]
        simp [Nat.add_assoc, Nat.add_comm 1 k]
      · intro j hj
        cases j with
        | zero => simpa using hacc
        | succ j => simpa using hfirst j (by omega)

theorem scanEdges_none (input : Point) (n : Nat) :
    ∀ (rest : List Point) (p0 : Point) (i : Nat),
    scanEdges input n p0 rest i = .ok none →
    ∀ j, j < rest.length →
      ¬ edgeAccepts input ((p0 :: rest).getD j default) (rest.getD j default) := by
  intro rest
  induction rest with
  | nil => intro p0 i _ j hj; simp at hj
  | cons p1 rest ih =>
    intro p0 i h j hj
    unfold scanEdges at h
    rw [edgeTest_eq] at h
    by_cases hacc : edgeAccepts input p0 p1
    · simp [hacc] at h
    · simp only [hacc, if_false] at h
      cases j with
      | zero => simpa using hacc
      | succ j => simpa using ih p1 (i + 1) h j (by simpa using hj)

theorem ring_getD (poly : List Point) (j : Nat) :
    ((poly.getD (poly.length - 1) default) :: poly).getD j default = edgeFrom poly j := by
  unfold edgeFrom
  cases j with
  | zero => simp
  | succ j => simp

/-! ## Checked reads -/

theorem readPoint_of_lt (poly : List Point) (i : Nat) (h : i < poly.length) :
    readPoint poly i = .ok (poly.getD i default) := by
  unfold readPoint
  rw [List.getD_eq_getElem?_getD, List.get?_eq_getElem?, List.getElem?_eq_getElem h]
  rfl

theorem readPoint_ok_iff (poly : List Point) (i : Nat) (p : Point) :
    readPoint poly i = .ok p ↔ i < poly.length ∧ poly.getD i default = p := by
  by_cases h : i < poly.length
  · rw [readPoint_of_lt poly i h]
    simp [h]
  · unfold readPoint
    rw [List.get?_eq_getElem?, List.getElem?_eq_none (by omega)]
    simp [h]

theorem readPolygon_ok_iff (polygonList : Polygons) (n : Nat) (poly : List Point) :
    readPolygon polygonList n = .ok poly ↔ polygonList.get? n = some poly := by
  unfold readPolygon
  cases polygonList.get? n <;> simp

/-! ## The outer loop -/

theorem scanPolygons_ok (input : Point) : ∀ (pl : Polygons) (n0 : Nat),
    (∀ poly ∈ pl, poly ≠ []) → ∃ o, scanPolygons input pl n0 = .ok o := by
  intro pl
  induction pl with
  | nil => intro n0 _; exact ⟨none, rfl⟩
  | cons poly rest ih =>
    intro n0 hne
    have hpos : poly.length - 1 < poly.length := by
      have : poly ≠ [] := hne poly (by simp)
      have := List.length_pos.2 this
      omega
    unfold scanPolygons
    rw [readPoint_of_lt poly _ hpos]
    obtain ⟨o, ho⟩ := scanEdges_ok input n0 poly (poly.getD (poly.length - 1) default) 0
    simp only [ho]
    cases o with
    | some r => exact ⟨some r, rfl⟩
    | none => exact ih (n0 + 1) (fun q hq => hne q (by simp [hq]))

theorem scanPolygons_some (input : Point) :
    ∀ (pl : Polygons) (n0 : Nat) (r : ClosePolygonResult),
    scanPolygons input pl n0 = .ok (some r) →
    ∃ m poly, pl.get? m = some poly ∧ r.polygonIdx = ((n0 + m : Nat) : Int) ∧
      r.pointIdx < poly.length ∧
      r.intersectionPoint =
        footPoint input (edgeFrom poly r.pointIdx) (edgeTo poly r.pointIdx) ∧
      edgeAccepts input (edgeFrom poly r.pointIdx) (edgeTo poly r.pointIdx) ∧
      (∀ j, j < r.pointIdx → ¬ edgeAccepts input (edgeFrom poly j) (edgeTo poly j)) ∧
      (∀ m0 poly0, m0 < m → pl.get? m0 = some poly0 → ∀ j, j < poly0.length →
        ¬ edgeAccepts input (edgeFrom poly0 j) (edgeTo poly0 j)) := by
  intro pl
  induction pl with
  | nil => intro n0 r h; simp [scanPolygons] at h
  | cons poly rest ih =>
    intro n0 r h
    unfold scanPolygons at h
    by_cases hpos : poly.length - 1 < poly.length
    · rw [readPoint_of_lt poly _ hpos] at h
      obtain ⟨o, ho⟩ := scanEdges_ok input n0 poly (poly.getD (poly.length - 1) default) 0
      simp only [ho] at h
      cases o with
      | some r0 =>
        simp only [Except.ok.injEq, Option.some.injEq] at h
        subst h
        obtain ⟨k, hk, hr, ha, hfirst⟩ := scanEdges_some input n0 poly _ 0 r0 ho
        simp only [ring_getD] at ha hfirst hr
        have hidx : r0.pointIdx = k := by rw [hr]; simp
        refine ⟨0, poly, by simp, by rw [hr]; simp, by omega, ?_, ?_, ?_, ?_⟩
        · rw [hidx, hr]; rfl
        · rw [hidx]; exact ha
        · rw [hidx]; exact hfirst
        · intro m0 poly0 hm0; omega
      | none =>
        simp only at h
        have hnone := scanEdges_none input n0 poly _ 0 ho
        simp only [ring_getD] at hnone
        obtain ⟨m, q, hq, hidx, hlt, hpt, hacc, hfirst, hprev⟩ := ih (n0 + 1) r h
        refine ⟨m + 1, q, by simpa using hq, by rw [hidx]; push_cast; ring, hlt, hpt, hacc,
          hfirst, ?_⟩
        intro m0 poly0 hm0 hget j hj
        cases m0 with
        | zero =>
          simp only [List.get?_cons_zero, Option.some.injEq] at hget
          subst hget
          exact hnone j hj
        | succ m0 => exact hprev m0 poly0 (by omega) (by simpa using hget) j hj
    · have : readPoint poly (poly.length - 1) = .error .indexOutOfRange := by
        unfold readPoint
        rw [List.get?_eq_getElem?, List.getElem?_eq_none (by omega)]
      rw [this] at h
      simp at h

theorem scanPolygons_none (input : Point) : ∀ (pl : Polygons) (n0 : Nat),
    scanPolygons input pl n0 = .ok none →
    ∀ m poly, pl.get? m = some poly → ∀ j, j < poly.length →
      ¬ edgeAccepts input (edgeFrom poly j) (edgeTo poly j) := by
  intro pl
  induction pl with
  | nil => intro n0 _ m poly hget; simp at hget
  | cons poly rest ih =>
    intro n0 h m q hget j hj
    unfold scanPolygons at h
    by_cases hpos : poly.length - 1 < poly.length
    · rw [readPoint_of_lt poly _ hpos] at h
      obtain ⟨o, ho⟩ := scanEdges_ok input n0 poly (poly.getD (poly.length - 1) default) 0
      simp only [ho] at h
      cases o with
      | some r0 => simp at h
      | none =>
        simp only at h
        have hnone := scanEdges_none input n0 poly _ 0 ho
        simp only [ring_getD] at hnone
        cases m with
        | zero =>
          simp only [List.get?_cons_zero, Option.some.injEq] at hget
          subst hget
          exact hnone j hj
        | succ m => exact ih (n0 + 1) h m q (by simpa using hget) j hj
    · have : readPoint poly (poly.length - 1) = .error .indexOutOfRange := by
        unfold readPoint
        rw [List.get?_eq_getElem?, List.getElem?_eq_none (by omega)]
      rw [this] at h
      simp at h

/-! ## The search as a whole -/

theorem findPolygonPointClosestTo_cases (pl : Polygons) (input : Point)
    (r : ClosePolygonResult) (h : findPolygonPointClosestTo pl input = .ok r) :
    scanPolygons input pl 0 = .ok (some r) ∨
      (scanPolygons input pl 0 = .ok none ∧ r = ⟨⟨0, 0⟩, -1, 0⟩) := by
  unfold findPolygonPointClosestTo at h
  cases hs : scanPolygons input pl 0 with
  | error e => rw [hs] at h; simp at h
  | ok o =>
    rw [hs] at h
    cases o with
    | some r0 =>
      simp only [Except.ok.injEq] at h
      subst h
      exact Or.inl rfl
    | none =>
      simp only [Except.ok.injEq] at h
      exact Or.inr ⟨rfl, h.symm⟩

theorem findPolygonPointClosestTo_found (pl : Polygons) (input : Point)
    (r : ClosePolygonResult) (h : findPolygonPointClosestTo pl input = .ok r)
    (hf : 0 ≤ r.polygonIdx) :
    ∃ poly, pl.get? r.polygonIdx.toNat = some poly ∧
      r.pointIdx < poly.length ∧
      r.intersectionPoint =
        footPoint input (edgeFrom poly r.pointIdx) (edgeTo poly r.pointIdx) ∧
      edgeAccepts input (edgeFrom poly r.pointIdx) (edgeTo poly r.pointIdx) ∧
      (∀ j, j < r.pointIdx → ¬ edgeAccepts input (edgeFrom poly j) (edgeTo poly j)) ∧
      (∀ m0 poly0, m0 < r.polygonIdx.toNat → pl.get? m0 = some poly0 → ∀ j, j < poly0.length →
        ¬ edgeAccepts input (edgeFrom poly0 j) (edgeTo poly0 j)) := by
  rcases findPolygonPointClosestTo_cases pl input r h with hs | ⟨_, hr⟩
  · obtain ⟨m, poly, hget, hidx, hlt, hpt, hacc, hfirst, hprev⟩ :=
      scanPolygons_some input pl 0 r hs
    have hm : r.polygonIdx.toNat = m := by rw [hidx]; simp
    rw [hm]
    exact ⟨poly, hget, hlt, hpt, hacc, hfirst, hprev⟩
  · rw [hr] at hf
    simp at hf

theorem findPolygonPointClosestTo_notFound (pl : Polygons) (input : Point)
    (r : ClosePolygonResult) (h : findPolygonPointClosestTo pl input = .ok r)
    (hf : r.polygonIdx < 0) :
    r.polygonIdx = -1 ∧ ∀ m poly, pl.get? m = some poly → ∀ j, j < poly.length →
      ¬ edgeAccepts input (edgeFrom poly j) (edgeTo poly j) := by
  rcases findPolygonPointClosestTo_cases pl input r h with hs | ⟨hs, hr⟩
  · obtain ⟨m, poly, hget, hidx, _⟩ := scanPolygons_some input pl 0 r hs
    rw [hidx] at hf
    omega
  · exact ⟨by rw [hr], scanPolygons_none input pl 0 hs⟩

theorem findPolygonPointClosestTo_ok (pl : Polygons) (input : Point)
    (hne : ∀ poly ∈ pl, poly ≠ []) : ∃ r, findPolygonPointClosestTo pl input = .ok r := by
  obtain ⟨o, ho⟩ := scanPolygons_ok input pl 0 hne
  unfold findPolygonPointClosestTo
  rw [ho]
  cases o with
  | some r => exact ⟨r, rfl⟩
  | none => exact ⟨_, rfl⟩

/-! ## Truncated division -/

theorem tdiv_scale_nonneg (a d L : Int) (hL : 0 < L) (hd0 : 0 ≤ d) (hdL : d ≤ L)
    (ha : 0 ≤ a) : 0 ≤ (a * d).tdiv L ∧ (a * d).tdiv L ≤ a := by
  have hnn : 0 ≤ a * d := Int.mul_nonneg ha hd0
  rw [Int.tdiv_eq_ediv hnn (Int.le_of_lt hL)]
  refine ⟨Int.ediv_nonneg hnn (Int.le_of_lt hL), ?_⟩
  apply Int.ediv_le_of_le_mul hL
  nlinarith

theorem tdiv_scale_nonpos (a d L : Int) (hL : 0 < L) (hd0 : 0 ≤ d) (hdL : d ≤ L)
    (ha : a ≤ 0) : a ≤ (a * d).tdiv L ∧ (a * d).tdiv L ≤ 0 := by
  have h := tdiv_scale_nonneg (-a) d L hL hd0 hdL (by omega)
  have e : (a * d).tdiv L = -((-a * d).tdiv L) := by
    rw [Int.neg_mul, Int.neg_tdiv, Int.neg_neg]
  rw [e]
  omega

theorem tdiv_range_iff (a L : Int) (hL : 0 < L) :
    (0 ≤ a.tdiv L ∧ a.tdiv L ≤ L) ↔ (-L < a ∧ a < L * (L + 1)) := by
  by_cases ha : 0 ≤ a
  · rw [Int.tdiv_eq_ediv ha (Int.le_of_lt hL)]
    constructor
    · rintro ⟨_, h2⟩
      refine ⟨by omega, ?_⟩
      have := Int.lt_ediv_add_one_mul_self a hL
      nlinarith
    · rintro ⟨_, h2⟩
      refine ⟨Int.ediv_nonneg ha (Int.le_of_lt hL), ?_⟩
      have : a / L < L + 1 := Int.ediv_lt_of_lt_mul hL (by nlinarith)
      omega
  · have hneg : 0 ≤ -a := by omega
    have e : a.tdiv L = -((-a) / L) := by
      rw [← Int.tdiv_eq_ediv hneg (Int.le_of_lt hL), Int.neg_tdiv, Int.neg_neg]
    rw [e]
    have hq : 0 ≤ (-a) / L := Int.ediv_nonneg hneg (Int.le_of_lt hL)
    constructor
    · rintro ⟨h1, _⟩
      have h0 : (-a) / L = 0 := by omega
      have := Int.lt_ediv_add_one_mul_self (-a) hL
      rw [h0] at this
      refine ⟨by omega, ?_⟩
      nlinarith
    · rintro ⟨h1, _⟩
      have h0 : (-a) / L = 0 := Int.ediv_eq_zero_of_lt hneg (by omega)
      rw [h0]
      omega

/-! ## The walking loop -/

theorem walk_mono (poly : List Point) (stop : Nat) :
    ∀ (fuel i : Nat) (p0 : Point) (len : Int) (p : Point) (len1 : Int),
    walk poly stop fuel i p0 len = .ok (p, len1) → len ≤ len1 := by
  intro fuel
  induction fuel with
  | zero =>
    intro i p0 len p len1 h
    unfold walk at h
    split at h
    · simp only [Except.ok.injEq, Prod.mk.injEq] at h
      omega
    · simp at h
  | succ fuel ih =>
    intro i p0 len p len1 h
    unfold walk at h
    split at h
    · simp only [Except.ok.injEq, Prod.mk.injEq] at h
      omega
    · cases hr : readPoint poly i with
      | error e => rw [hr] at h; simp at h
      | ok p1 =>
        rw [hr] at h
        have := ih _ _ _ _ _ h
        have := vSize_nonneg (p0 - p1)
        omega

theorem walk_ok (poly : List Point) (stop : Nat) (hstop : stop < poly.length) :
    ∀ (fuel i : Nat) (p0 : Point) (len : Int), i < poly.length →
    stepsTo poly.length i stop ≤ fuel →
    ∃ p len1, walk poly stop fuel i p0 len = .ok (p, len1) := by
  intro fuel
  induction fuel with
  | zero =>
    intro i p0 len hi hsteps
    have : i = stop := by
      unfold stepsTo at hsteps
      split at hsteps <;> omega
    unfold walk
    simp [this]
  | succ fuel ih =>
    intro i p0 len hi hsteps
    unfold walk
    by_cases hEq : i = stop
    · simp [hEq]
    · simp only [hEq, if_false]
      rw [readPoint_of_lt poly i hi]
      have hlt : (i + 1) % poly.length < poly.length := Nat.mod_lt _ (by omega)
      apply ih _ _ _ hlt
      by_cases hwrap : i + 1 < poly.length
      · rw [Nat.mod_eq_of_lt hwrap]
        unfold stepsTo at hsteps ⊢
        split at hsteps <;> split <;> omega
      · have : i + 1 = poly.length := by omega
        rw [this, Nat.mod_self]
        unfold stepsTo at hsteps ⊢
        split at hsteps <;> split <;> omega

theorem stepsTo_lt (size i stop : Nat) (hi : i < size) (hstop : stop < size) :
    stepsTo size i stop < size := by
  unfold stepsTo
  split <;> omega

/-! ## The two path lengths -/

theorem gapLenA_ok (poly : List Point) (A B : Nat) (ip0 ip1 : Point)
    (hA : A < poly.length) (hB : B < poly.length) :
    ∃ lenA, gapLenA poly A B ip0 ip1 = .ok lenA := by
  unfold gapLenA
  rw [readPoint_of_lt poly A hA]
  obtain ⟨p, len1, hw⟩ := walk_ok poly B hB poly.length A (poly.getD A default)
    (vSize (poly.getD A default - ip0)) hA (Nat.le_of_lt (stepsTo_lt _ _ _ hA hB))
  simp only [hw]
  exact ⟨_, rfl⟩

theorem gapLenB_ok (poly : List Point) (A B : Nat) (ip0 ip1 : Point)
    (hA : A < poly.length) (hB : B < poly.length) :
    ∃ lenB, gapLenB poly A B ip0 ip1 = .ok lenB := by
  unfold gapLenB
  rw [readPoint_of_lt poly B hB]
  obtain ⟨p, len1, hw⟩ := walk_ok poly A hA poly.length B (poly.getD B default)
    (vSize (poly.getD B default - ip1)) hB (Nat.le_of_lt (stepsTo_lt _ _ _ hB hA))
  simp only [hw]
  exact ⟨_, rfl⟩

theorem gapLenA_inv (poly : List Point) (A B : Nat) (ip0 ip1 : Point) (lenA : Int)
    (h : gapLenA poly A B ip0 ip1 = .ok lenA) :
    ∃ p0 p len1, readPoint poly A = .ok p0 ∧
      walk poly B poly.length A p0 (vSize (p0 - ip0)) = .ok (p, len1) ∧
      lenA = len1 + vSize (p - ip1) := by
  unfold gapLenA at h
  cases hr : readPoint poly A with
  | error e => rw [hr] at h; simp at h
  | ok p0 =>
    rw [hr] at h
    simp only at h
    cases hw : walk poly B poly.length A p0 (vSize (p0 - ip0)) with
    | error e => rw [hw] at h; simp at h
    | ok res =>
      obtain ⟨p, len1⟩ := res
      rw [hw] at h
      simp only [Except.ok.injEq] at h
      exact ⟨p0, p, len1, rfl, hw, h.symm⟩

theorem gapLenB_inv (poly : List Point) (A B : Nat) (ip0 ip1 : Point) (lenB : Int)
    (h : gapLenB poly A B ip0 ip1 = .ok lenB) :
    ∃ p0 p len1, readPoint poly B = .ok p0 ∧
      walk poly A poly.length B p0 (vSize (p0 - ip1)) = .ok (p, len1) ∧
      lenB = len1 + vSize (p - ip0) := by
  unfold gapLenB at h
  cases hr : readPoint poly B with
  | error e => rw [hr] at h; simp at h
  | ok p0 =>
    rw [hr] at h
    simp only at h
    cases hw : walk poly A poly.length B p0 (vSize (p0 - ip1)) with
    | error e => rw [hw] at h; simp at h
    | ok res =>
      obtain ⟨p, len1⟩ := res
      rw [hw] at h
      simp only [Except.ok.injEq] at h
      exact ⟨p0, p, len1, rfl, hw, h.symm⟩

theorem gapLenA_nonneg (poly : List Point) (A B : Nat) (ip0 ip1 : Point) (lenA : Int)
    (h : gapLenA poly A B ip0 ip1 = .ok lenA) : 0 ≤ lenA := by
  obtain ⟨p0, p, len1, _, hw, he⟩ := gapLenA_inv poly A B ip0 ip1 lenA h
  have := walk_mono _ _ _ _ _ _ _ _ hw
  have := vSize_nonneg (p0 - ip0)
  have := vSize_nonneg (p - ip1)
  omega

theorem gapLenB_nonneg (poly : List Point) (A B : Nat) (ip0 ip1 : Point) (lenB : Int)
    (h : gapLenB poly A B ip0 ip1 = .ok lenB) : 0 ≤ lenB := by
  obtain ⟨p0, p, len1, _, hw, he⟩ := gapLenB_inv poly A B ip0 ip1 lenB h
  have := walk_mono _ _ _ _ _ _ _ _ hw
  have := vSize_nonneg (p0 - ip1)
  have := vSize_nonneg (p - ip0)
  omega

/-! ## The plan -/

theorem gapCloserPlan_inv (pl : Polygons) (idx : Int) (A B : Nat) (ip0 ip1 : Point)
    (ret : GapCloserResult) (h : gapCloserPlan pl idx A B ip0 ip1 = .ok ret) :
    ret.polygonIdx = idx ∧ ret.pointIdxA = A ∧ ret.pointIdxB = B ∧
      ((A = B ∧ ret.len = vSize (ip0 - ip1) ∧ ret.AtoB = true) ∨
       (A ≠ B ∧ ∃ poly lenA lenB, pl.get? idx.toNat = some poly ∧
          gapLenA poly A B ip0 ip1 = .ok lenA ∧ gapLenB poly A B ip0 ip1 = .ok lenB ∧
          ret.len = (if lenA < lenB then lenA else lenB) ∧
          ret.AtoB = decide (lenA < lenB))) := by
  unfold gapCloserPlan at h
  by_cases hAB : A = B
  · simp only [hAB, if_true, Except.ok.injEq] at h
    subst h
    simp [hAB]
  · simp only [hAB, if_false] at h
    cases hp : readPolygon pl idx.toNat with
    | error e => rw [hp] at h; simp at h
    | ok poly =>
      rw [hp] at h
      simp only at h
      cases hA : gapLenA poly A B ip0 ip1 with
      | error e => rw [hA] at h; simp at h
      | ok lenA =>
        rw [hA] at h
        simp only at h
        cases hB : gapLenB poly A B ip0 ip1 with
        | error e => rw [hB] at h; simp at h
        | ok lenB =>
          rw [hB] at h
          simp only at h
          have hget := (readPolygon_ok_iff pl idx.toNat poly).1 hp
          by_cases hlt : lenA < lenB
          · simp only [hlt, if_true, Except.ok.injEq] at h
            subst h
            refine ⟨rfl, rfl, rfl, Or.inr ⟨hAB, poly, lenA, lenB, hget, hA, hB, ?_, ?_⟩⟩
            · simp [hlt]
            · simp [hlt]
          · simp only [hlt, if_false, Except.ok.injEq] at h
            subst h
            refine ⟨rfl, rfl, rfl, Or.inr ⟨hAB, poly, lenA, lenB, hget, hA, hB, ?_, ?_⟩⟩
            · simp [hlt]
            · simp [hlt]

theorem gapCloserPlan_ok (pl : Polygons) (idx : Int) (A B : Nat) (ip0 ip1 : Point)
    (poly : List Point) (hget : pl.get? idx.toNat = some poly)
    (hA : A < poly.length) (hB : B < poly.length) :
    ∃ ret, gapCloserPlan pl idx A B ip0 ip1 = .ok ret := by
  unfold gapCloserPlan
  by_cases hAB : A = B
  · simp [hAB]
  · simp only [hAB, if_false]
    rw [(readPolygon_ok_iff pl idx.toNat poly).2 hget]
    obtain ⟨lenA, hlA⟩ := gapLenA_ok poly A B ip0 ip1 hA hB
    obtain ⟨lenB, hlB⟩ := gapLenB_ok poly A B ip0 ip1 hA hB
    simp only [hlA, hlB]
    by_cases hlt : lenA < lenB
    · simp [hlt]
    · simp [hlt]

theorem gapCloserPlan_len_nonneg (pl : Polygons) (idx : Int) (A B : Nat) (ip0 ip1 : Point)
    (ret : GapCloserResult) (h : gapCloserPlan pl idx A B ip0 ip1 = .ok ret) :
    0 ≤ ret.len := by
  obtain ⟨_, _, _, hc⟩ := gapCloserPlan_inv pl idx A B ip0 ip1 ret h
  rcases hc with ⟨_, hl, _⟩ | ⟨_, poly, lenA, lenB, _, hA, hB, hl, _⟩
  · rw [hl]; exact vSize_nonneg _
  · have := gapLenA_nonneg _ _ _ _ _ _ hA
    have := gapLenB_nonneg _ _ _ _ _ _ hB
    rw [hl]
    split <;> assumption

/-! ## The gap closer as a whole -/

theorem findPolygonGapCloser_inv (pl : Polygons) (ip0 ip1 : Point) (ret : GapCloserResult)
    (h : findPolygonGapCloser pl ip0 ip1 = .ok ret) :
    ∃ c1 c2, findPolygonPointClosestTo pl ip0 = .ok c1 ∧
      findPolygonPointClosestTo pl ip1 = .ok c2 ∧
      (((c1.polygonIdx < 0 ∨ c1.polygonIdx ≠ c2.polygonIdx) ∧ ret = ⟨-1, 0, 0, 0, false⟩) ∨
       (0 ≤ c1.polygonIdx ∧ c1.polygonIdx = c2.polygonIdx ∧
          gapCloserPlan pl c1.polygonIdx c1.pointIdx c2.pointIdx ip0 ip1 = .ok ret)) := by
  unfold findPolygonGapCloser at h
  cases h1 : findPolygonPointClosestTo pl ip0 with
  | error e => rw [h1] at h; simp at h
  | ok c1 =>
    rw [h1] at h
    simp only at h
    cases h2 : findPolygonPointClosestTo pl ip1 with
    | error e => rw [h2] at h; simp at h
    | ok c2 =>
      rw [h2] at h
      simp only at h
      refine ⟨c1, c2, rfl, rfl, ?_⟩
      by_cases hc : c1.polygonIdx < 0 ∨ c1.polygonIdx ≠ c2.polygonIdx
      · simp only [hc, if_true, Except.ok.injEq] at h
        exact Or.inl ⟨hc, h.symm⟩
      · simp only [hc, if_false] at h
        refine Or.inr ⟨by omega, by omega, h⟩

theorem findPolygonGapCloser_eq (pl : Polygons) (ip0 ip1 : Point) (c1 c2 : ClosePolygonResult)
    (h1 : findPolygonPointClosestTo pl ip0 = .ok c1)
    (h2 : findPolygonPointClosestTo pl ip1 = .ok c2) :
    findPolygonGapCloser pl ip0 ip1 =
      if c1.polygonIdx < 0 ∨ c1.polygonIdx ≠ c2.polygonIdx then .ok ⟨-1, 0, 0, 0, false⟩
      else gapCloserPlan pl c1.polygonIdx c1.pointIdx c2.pointIdx ip0 ip1 := by
  unfold findPolygonGapCloser
  rw [h1, h2]

/-! ## What a found result is -/

theorem edgePoints_get (poly : List Point) (i : Nat) (hi : i < poly.length) :
    poly.get? (if i = 0 then poly.length - 1 else i - 1) = some (edgeFrom poly i) ∧
      poly.get? i = some (edgeTo poly i) := by
  have hprev : (if i = 0 then poly.length - 1 else i - 1) < poly.length := by
    split <;> omega
  unfold edgeFrom edgeTo
  simp only [List.get?_eq_getElem?, List.getD_eq_getElem?_getD]
  rw [List.getElem?_eq_getElem hprev, List.getElem?_eq_getElem hi]
  simp

theorem footPoint_in_box (input p0 p1 : Point) (h : edgeAccepts input p0 p1) :
    (min p0.X p1.X ≤ (footPoint input p0 p1).X ∧ (footPoint input p0 p1).X ≤ max p0.X p1.X) ∧
      (min p0.Y p1.Y ≤ (footPoint input p0 p1).Y ∧
        (footPoint input p0 p1).Y ≤ max p0.Y p1.Y) := by
  obtain ⟨hL, ⟨hd0, hdL⟩, _⟩ := h
  have hLpos : 0 < vSize (p1 - p0) := by omega
  unfold footPoint
  simp only [Point.add_X, Point.add_Y, Point.sub_X, Point.sub_Y]
  constructor
  · rcases Int.le_total 0 (p1.X - p0.X) with hx | hx
    · have := tdiv_scale_nonneg _ _ _ hLpos hd0 hdL hx
      omega
    · have := tdiv_scale_nonpos _ _ _ hLpos hd0 hdL hx
      omega
  · rcases Int.le_total 0 (p1.Y - p0.Y) with hy | hy
    · have := tdiv_scale_nonneg _ _ _ hLpos hd0 hdL hy
      omega
    · have := tdiv_scale_nonpos _ _ _ hLpos hd0 hdL hy
      omega

/-- C3: a found result of `findPolygonPointClosestTo` is within the tolerance of the
query: the squared distance between `intersectionPoint` and the query is at most
100*100. -/
theorem findPolygonPointClosestTo_within_tolerance (pl : Polygons) (input : Point)
    (r : ClosePolygonResult) (h : findPolygonPointClosestTo pl input = .ok r)
    (hf : r.found) : vSize2 (r.intersectionPoint - input) ≤ 100 * 100 := by
  obtain ⟨poly, _, _, hpt, hacc, _⟩ := findPolygonPointClosestTo_found pl input r h hf
  rw [hpt]
  exact hacc.2.2

/-- Instance of C3 on the square: the query (500,30) is matched to (500,0) on edge 1,
at squared distance 900. -/
theorem findPolygonPointClosestTo_within_tolerance_witness :
    vSize2 ((⟨500, 0⟩ : Point) - ⟨500, 30⟩) ≤ 100 * 100 :=
  findPolygonPointClosestTo_within_tolerance square ⟨500, 30⟩ ⟨⟨500, 0⟩, 0, 1⟩
    (by decide) (by decide)

/-- C4: a found result with polygon index `n` and point index `i` names an edge of
polygon `n`: `i` is in range, the edge runs from the polygon's point `i - 1` (its
last point when `i = 0`) to its point `i`, `intersectionPoint` is the connection
point the edge test computes on that edge, and each of its coordinates lies
between the corresponding coordinates of the two endpoints, inclusive. -/
theorem findPolygonPointClosestTo_on_edge (pl : Polygons) (input : Point)
    (r : ClosePolygonResult) (h : findPolygonPointClosestTo pl input = .ok r)
    (hf : r.found) :
    ∃ poly, pl.get? r.polygonIdx.toNat = some poly ∧ r.pointIdx < poly.length ∧
      poly.get? (if r.pointIdx = 0 then poly.length - 1 else r.pointIdx - 1) =
        some (edgeFrom poly r.pointIdx) ∧
      poly.get? r.pointIdx = some (edgeTo poly r.pointIdx) ∧
      edgeTest input (edgeFrom poly r.pointIdx) (edgeTo poly r.pointIdx) =
        .ok (some r.intersectionPoint) ∧
      (min (edgeFrom poly r.pointIdx).X (edgeTo poly r.pointIdx).X ≤ r.intersectionPoint.X ∧
        r.intersectionPoint.X ≤ max (edgeFrom poly r.pointIdx).X (edgeTo poly r.pointIdx).X) ∧
      (min (edgeFrom poly r.pointIdx).Y (edgeTo poly r.pointIdx).Y ≤ r.intersectionPoint.Y ∧
        r.intersectionPoint.Y ≤ max (edgeFrom poly r.pointIdx).Y (edgeTo poly r.pointIdx).Y) := by
  obtain ⟨poly, hget, hlt, hpt, hacc, _⟩ := findPolygonPointClosestTo_found pl input r h hf
  have hpts := edgePoints_get poly r.pointIdx hlt
  have hbox := footPoint_in_box input _ _ hacc
  refine ⟨poly, hget, hlt, hpts.1, hpts.2, ?_, ?_, ?_⟩
  · rw [edgeTest_eq, hpt]
    simp [hacc]
  · rw [hpt]; exact hbox.1
  · rw [hpt]; exact hbox.2

/-- Instance of C4 on the square: the query (20,990) is matched to the wrap-around
edge 0, from the last point (0,1000) to the first point (0,0), at (0,990). -/
theorem findPolygonPointClosestTo_on_edge_witness :
    ∃ poly, square.get? (0 : Int).toNat = some poly ∧ 0 < poly.length ∧
      poly.get? (if 0 = 0 then poly.length - 1 else 0 - 1) = some (edgeFrom poly 0) ∧
      poly.get? 0 = some (edgeTo poly 0) ∧
      edgeTest ⟨20, 990⟩ (edgeFrom poly 0) (edgeTo poly 0) = .ok (some ⟨0, 990⟩) ∧
      (min (edgeFrom poly 0).X (edgeTo poly 0).X ≤ 0 ∧
        0 ≤ max (edgeFrom poly 0).X (edgeTo poly 0).X) ∧
      (min (edgeFrom poly 0).Y (edgeTo poly 0).Y ≤ 990 ∧
        990 ≤ max (edgeFrom poly 0).Y (edgeTo poly 0).Y) :=
  findPolygonPointClosestTo_on_edge square ⟨20, 990⟩ ⟨⟨0, 990⟩, 0, 0⟩ (by decide) (by decide)

/-! ## First match and no match -/

/-- C5: `findPolygonPointClosestTo` is a first-match search: the edge of a found
result satisfies the acceptance conditions, and no edge that comes earlier in scan
order (an edge of a polygon with a smaller index, or an edge of the same polygon
with a smaller point index, edge 0 being the wrap-around edge) satisfies them: the
edge test rejects each of them. -/
theorem findPolygonPointClosestTo_first_match (pl : Polygons) (input : Point)
    (r : ClosePolygonResult) (h : findPolygonPointClosestTo pl input = .ok r)
    (hf : r.found) :
    (∃ poly, pl.get? r.polygonIdx.toNat = some poly ∧ r.pointIdx < poly.length ∧
      edgeAccepts input (edgeFrom poly r.pointIdx) (edgeTo poly r.pointIdx)) ∧
    ∀ m j poly0, pl.get? m = some poly0 → j < poly0.length →
      scansBefore m j r.polygonIdx.toNat r.pointIdx →
      ¬ edgeAccepts input (edgeFrom poly0 j) (edgeTo poly0 j) ∧
        edgeTest input (edgeFrom poly0 j) (edgeTo poly0 j) = .ok none := by
  obtain ⟨poly, hget, hlt, _, hacc, hfirst, hprev⟩ :=
    findPolygonPointClosestTo_found pl input r h hf
  refine ⟨⟨poly, hget, hlt, hacc⟩, ?_⟩
  intro m j poly0 hget0 hj hbefore
  have hrej : ¬ edgeAccepts input (edgeFrom poly0 j) (edgeTo poly0 j) := by
    rcases hbefore with hm | ⟨hm, hji⟩
    · exact hprev m poly0 hm hget0 j hj
    · subst hm
      rw [hget] at hget0
      simp only [Option.some.injEq] at hget0
      subst hget0
      exact hfirst j hji
  refine ⟨hrej, ?_⟩
  rw [edgeTest_eq]
  simp [hrej]

/-- Instance of C5 on the square: the query (500,1000) is matched to edge 3, and
the earlier edge 1 is rejected. -/
theorem findPolygonPointClosestTo_first_match_witness :
    ¬ edgeAccepts ⟨500, 1000⟩ (edgeFrom squarePoly 1) (edgeTo squarePoly 1) ∧
      edgeTest ⟨500, 1000⟩ (edgeFrom squarePoly 1) (edgeTo squarePoly 1) = .ok none :=
  (findPolygonPointClosestTo_first_match square ⟨500, 1000⟩ ⟨⟨500, 1000⟩, 0, 3⟩
    (by decide) (by decide)).2 0 1 squarePoly (by decide) (by decide) (by decide)

/-- The first match need not be the nearest edge: the query (50,10) is matched to
edge 0 of the square, at squared distance 2500, although edge 1 also accepts it, at
squared distance 100. -/
theorem findPolygonPointClosestTo_first_not_nearest :
    findPolygonPointClosestTo square ⟨50, 10⟩ = .ok ⟨⟨0, 10⟩, 0, 0⟩ ∧
      vSize2 ((⟨0, 10⟩ : Point) - ⟨50, 10⟩) = 2500 ∧
      edgeTest ⟨50, 10⟩ (edgeFrom squarePoly 1) (edgeTo squarePoly 1) = .ok (some ⟨50, 0⟩) ∧
      vSize2 ((⟨50, 0⟩ : Point) - ⟨50, 10⟩) = 100 := by
  decide

/-- An empty polygon makes line 110 read out of range: the search faults on it. -/
theorem findPolygonPointClosestTo_empty_polygon (input : Point) :
    findPolygonPointClosestTo [[]] input = .error .indexOutOfRange := by
  rfl

/-- C6: on a polygon list whose polygons are all non-empty, `findPolygonPointClosestTo`
returns without a fault, and it returns "not found" (`polygonIdx = -1`) if and only
if no edge of any polygon, wrap-around edges included, satisfies the acceptance
conditions; in particular it returns not found for the empty list, and the edge
test never faults, whatever the edge. -/
theorem findPolygonPointClosestTo_notFound_iff (pl : Polygons) (input : Point)
    (hne : ∀ poly ∈ pl, poly ≠ []) :
    ∃ r, findPolygonPointClosestTo pl input = .ok r ∧
      (r.polygonIdx = -1 ↔
        ∀ m poly j, pl.get? m = some poly → j < poly.length →
          ¬ edgeAccepts input (edgeFrom poly j) (edgeTo poly j)) ∧
      (¬ r.found ↔ r.polygonIdx = -1) ∧
      (pl = [] → r.polygonIdx = -1) ∧
      (∀ p0 p1, ∃ o, edgeTest input p0 p1 = .ok o) := by
  obtain ⟨r, hr⟩ := findPolygonPointClosestTo_ok pl input hne
  have hiff : r.polygonIdx = -1 ↔
      ∀ m poly j, pl.get? m = some poly → j < poly.length →
        ¬ edgeAccepts input (edgeFrom poly j) (edgeTo poly j) := by
    constructor
    · intro hidx m poly j hget hj
      exact (findPolygonPointClosestTo_notFound pl input r hr (by omega)).2 m poly hget j hj
    · intro hall
      by_cases hf : 0 ≤ r.polygonIdx
      · obtain ⟨poly, hget, hlt, _, hacc, _⟩ :=
          findPolygonPointClosestTo_found pl input r hr hf
        exact absurd hacc (hall _ poly _ hget hlt)
      · exact (findPolygonPointClosestTo_notFound pl input r hr (by omega)).1
  have hnf : ¬ r.found ↔ r.polygonIdx = -1 := by
    unfold ClosePolygonResult.found
    constructor
    · intro hf
      exact (findPolygonPointClosestTo_notFound pl input r hr (by omega)).1
    · intro hidx
      omega
  refine ⟨r, hr, hiff, hnf, ?_, fun p0 p1 => ⟨_, edgeTest_eq input p0 p1⟩⟩
  intro hnil
  apply hiff.2
  intro m poly j hget
  rw [hnil] at hget
  simp at hget

/-- Instance of C6 on the square, whose only polygon is non-empty, for the far
query (5000,5000). -/
theorem findPolygonPointClosestTo_notFound_iff_witness :
    ∃ r, findPolygonPointClosestTo square ⟨5000, 5000⟩ = .ok r ∧
      (r.polygonIdx = -1 ↔
        ∀ m poly j, square.get? m = some poly → j < poly.length →
          ¬ edgeAccepts ⟨5000, 5000⟩ (edgeFrom poly j) (edgeTo poly j)) ∧
      (¬ r.found ↔ r.polygonIdx = -1) ∧
      (square = [] → r.polygonIdx = -1) ∧
      (∀ p0 p1, ∃ o, edgeTest ⟨5000, 5000⟩ p0 p1 = .ok o) :=
  findPolygonPointClosestTo_notFound_iff square ⟨5000, 5000⟩ (by decide)

/-! ## The projection test -/

theorem vSize2_nonneg (p : Point) : 0 ≤ vSize2 p := by
  unfold vSize2
  nlinarith [mul_self_nonneg p.X, mul_self_nonneg p.Y]

theorem vSize_sq_bounds (p : Point) :
    vSize p * vSize p ≤ vSize2 p ∧ vSize2 p < (vSize p + 1) * (vSize p + 1) := by
  have hcast : (((vSize2 p).toNat : Nat) : Int) = vSize2 p :=
    Int.toNat_of_nonneg (vSize2_nonneg p)
  obtain ⟨hlo, hhi⟩ := isqrt_spec (vSize2 p).toNat
  unfold vSize
  constructor
  · rw [← hcast]
    exact_mod_cast hlo
  · have : vSize2 p = (((vSize2 p).toNat : Nat) : Int) := hcast.symm
    rw [this]
    exact_mod_cast hhi

theorem vSize_gt_one_iff (p : Point) : 1 < vSize p ↔ 4 ≤ vSize2 p := by
  obtain ⟨hlo, hhi⟩ := vSize_sq_bounds p
  have := vSize_nonneg p
  constructor
  · intro h; nlinarith
  · intro h
    by_contra hc
    have : vSize p ≤ 1 := by omega
    nlinarith

theorem edgeTest_some_iff (input p0 p1 q : Point) :
    edgeTest input p0 p1 = .ok (some q) ↔
      edgeAccepts input p0 p1 ∧ q = footPoint input p0 p1 := by
  rw [edgeTest_eq]
  by_cases h : edgeAccepts input p0 p1
  · simp [h, eq_comm]
  · simp [h]

theorem edgeAccepts_dot_bounds (input p0 p1 : Point) (h : edgeAccepts input p0 p1) :
    (-vSize (p1 - p0) < dot (p1 - p0) (input - p0) ∧
      dot (p1 - p0) (input - p0) < vSize (p1 - p0) * (vSize (p1 - p0) + 1)) ∧
    (dot (p1 - p0) (input - p0) < 0 →
      dot (p1 - p0) (input - p0) * dot (p1 - p0) (input - p0) < vSize2 (p1 - p0)) ∧
    (vSize2 (p1 - p0) < dot (p1 - p0) (input - p0) →
      (dot (p1 - p0) (input - p0) - vSize2 (p1 - p0)) *
        (dot (p1 - p0) (input - p0) - vSize2 (p1 - p0)) < vSize2 (p1 - p0)) := by
  obtain ⟨hL, hd, _⟩ := h
  unfold distOnLine at hd
  have hLpos : 0 < vSize (p1 - p0) := by omega
  have hrange := (tdiv_range_iff (dot (p1 - p0) (input - p0)) (vSize (p1 - p0)) hLpos).1 hd
  obtain ⟨hlo, hhi⟩ := vSize_sq_bounds (p1 - p0)
  generalize dot (p1 - p0) (input - p0) = D at hd hrange ⊢
  generalize vSize (p1 - p0) = L at hL hLpos hd hrange hlo hhi ⊢
  generalize vSize2 (p1 - p0) = V at hlo hhi ⊢
  refine ⟨hrange, ?_, ?_⟩
  · intro hneg
    nlinarith
  · intro hbig
    have h1 : D - V < L := by nlinarith
    have h2 : 0 < D - V := by omega
    nlinarith

/-- C7 (as stated, refuted): the query (-1,0) is matched to the edge from (0,0) to
(3,3) although its exact projection parameter is negative (dot = -3), the foot
lying before the start point; and the query (5,2) is matched to the edge from (0,0)
to (4,3) although its exact parameter exceeds the edge length (dot = 26 > 25), the
foot lying beyond the end point. -/
theorem edgeTest_accepts_off_edge :
    findPolygonPointClosestTo [[⟨0, 0⟩, ⟨3, 3⟩]] ⟨-1, 0⟩ = .ok ⟨⟨0, 0⟩, 0, 1⟩ ∧
      edgeTest ⟨-1, 0⟩ ⟨0, 0⟩ ⟨3, 3⟩ = .ok (some ⟨0, 0⟩) ∧
      dot ((⟨3, 3⟩ : Point) - ⟨0, 0⟩) ((⟨-1, 0⟩ : Point) - ⟨0, 0⟩) = -3 ∧
      ¬ projectsOntoEdge ⟨-1, 0⟩ ⟨0, 0⟩ ⟨3, 3⟩ ∧
      edgeTest ⟨5, 2⟩ ⟨0, 0⟩ ⟨4, 3⟩ = .ok (some ⟨4, 3⟩) ∧
      dot ((⟨4, 3⟩ : Point) - ⟨0, 0⟩) ((⟨5, 2⟩ : Point) - ⟨0, 0⟩) = 26 ∧
      vSize2 ((⟨4, 3⟩ : Point) - ⟨0, 0⟩) = 25 ∧
      ¬ projectsOntoEdge ⟨5, 2⟩ ⟨0, 0⟩ ⟨4, 3⟩ := by
  decide

/-- C7 (amended): the edge test accepts an edge from `p0` to `p1` only if the
projection parameter as computed, `dot(p1 - p0, input - p0) / L` truncated toward
zero with `L` the integer edge length, lies in `[0, L]`; that is, only if
`-L < dot < L * (L + 1)`.  The exact foot may therefore lie on the extension of the
edge, but less than one unit before `p0` (`dot^2 < |p1 - p0|^2` when `dot < 0`) and
less than one unit beyond `p1` (`(dot - |p1 - p0|^2)^2 < |p1 - p0|^2` when
`dot > |p1 - p0|^2`). -/
theorem edgeTest_accepts_only_in_range (input p0 p1 q : Point)
    (h : edgeTest input p0 p1 = .ok (some q)) :
    (0 ≤ (dot (p1 - p0) (input - p0)).tdiv (vSize (p1 - p0)) ∧
      (dot (p1 - p0) (input - p0)).tdiv (vSize (p1 - p0)) ≤ vSize (p1 - p0)) ∧
    (-vSize (p1 - p0) < dot (p1 - p0) (input - p0) ∧
      dot (p1 - p0) (input - p0) < vSize (p1 - p0) * (vSize (p1 - p0) + 1)) ∧
    (dot (p1 - p0) (input - p0) < 0 →
      dot (p1 - p0) (input - p0) * dot (p1 - p0) (input - p0) < vSize2 (p1 - p0)) ∧
    (vSize2 (p1 - p0) < dot (p1 - p0) (input - p0) →
      (dot (p1 - p0) (input - p0) - vSize2 (p1 - p0)) *
        (dot (p1 - p0) (input - p0) - vSize2 (p1 - p0)) < vSize2 (p1 - p0)) := by
  obtain ⟨hacc, _⟩ := (edgeTest_some_iff input p0 p1 q).1 h
  obtain ⟨hrange, hbefore, hbeyond⟩ := edgeAccepts_dot_bounds input p0 p1 hacc
  exact ⟨hacc.2.1, hrange, hbefore, hbeyond⟩

/-- Instance of C7 (amended): the query (500,3) projects onto the square's edge
from (0,0) to (1000,0). -/
theorem edgeTest_accepts_only_in_range_witness :
    ((0 : Int) ≤ (dot ((⟨1000, 0⟩ : Point) - ⟨0, 0⟩) ((⟨500, 3⟩ : Point) - ⟨0, 0⟩)).tdiv
        (vSize ((⟨1000, 0⟩ : Point) - ⟨0, 0⟩)) ∧
      (dot ((⟨1000, 0⟩ : Point) - ⟨0, 0⟩) ((⟨500, 3⟩ : Point) - ⟨0, 0⟩)).tdiv
        (vSize ((⟨1000, 0⟩ : Point) - ⟨0, 0⟩)) ≤ vSize ((⟨1000, 0⟩ : Point) - ⟨0, 0⟩)) :=
  (edgeTest_accepts_only_in_range ⟨500, 3⟩ ⟨0, 0⟩ ⟨1000, 0⟩ ⟨500, 0⟩ (by decide)).1

/-- C10 (as stated, refuted): the query (0,0), a corner of the square, is matched
to the wrap-around edge from (0,1000) to (0,0) with `dot = |p1 - p0|^2`: the foot of
the perpendicular is the end point of the edge, not strictly inside its span.  And
on the polygon (0,0), (4,3) the query (5,2) is matched to the wrap-around edge from
(4,3) to (0,0) with `dot = -1`: the foot lies on the extension of the edge. -/
theorem findPolygonPointClosestTo_foot_on_endpoint :
    findPolygonPointClosestTo square ⟨0, 0⟩ = .ok ⟨⟨0, 0⟩, 0, 0⟩ ∧
      edgeFrom squarePoly 0 = ⟨0, 1000⟩ ∧ edgeTo squarePoly 0 = ⟨0, 0⟩ ∧
      dot (edgeTo squarePoly 0 - edgeFrom squarePoly 0) (⟨0, 0⟩ - edgeFrom squarePoly 0) =
        vSize2 (edgeTo squarePoly 0 - edgeFrom squarePoly 0) ∧
      ¬ projectsStrictlyInside ⟨0, 0⟩ (edgeFrom squarePoly 0) (edgeTo squarePoly 0) ∧
      findPolygonPointClosestTo [[⟨0, 0⟩, ⟨4, 3⟩]] ⟨5, 2⟩ = .ok ⟨⟨4, 3⟩, 0, 0⟩ ∧
      edgeFrom [⟨0, 0⟩, ⟨4, 3⟩] 0 = ⟨4, 3⟩ ∧ edgeTo [⟨0, 0⟩, ⟨4, 3⟩] 0 = ⟨0, 0⟩ ∧
      dot ((⟨0, 0⟩ : Point) - ⟨4, 3⟩) ((⟨5, 2⟩ : Point) - ⟨4, 3⟩) = -1 ∧
      ¬ projectsStrictlyInside ⟨5, 2⟩ ⟨4, 3⟩ ⟨0, 0⟩ := by
  decide

/-- C10 (amended): a candidate touch point is accepted only if its integer
projection distance `d` (line 120) lies in the closed range `[0, L]`, `L` being the
integer length of the edge: for every found result, `intersectionPoint` is the
point `p0 + (p1 - p0) * d / L` of the reported edge with `0 <= d <= L`.  The bounds
are inclusive, so the foot may be an endpoint of the edge; and the exact foot of
the perpendicular lies less than one unit before `p0` when `dot < 0` and less than
one unit beyond `p1` when `dot > |p1 - p0|^2`. -/
theorem findPolygonPointClosestTo_foot_in_closed_span (pl : Polygons) (input : Point)
    (r : ClosePolygonResult) (h : findPolygonPointClosestTo pl input = .ok r)
    (hf : r.found) :
    ∃ poly p0 p1, pl.get? r.polygonIdx.toNat = some poly ∧ r.pointIdx < poly.length ∧
      p0 = edgeFrom poly r.pointIdx ∧ p1 = edgeTo poly r.pointIdx ∧
      r.intersectionPoint = footPoint input p0 p1 ∧
      (0 ≤ distOnLine input p0 p1 ∧ distOnLine input p0 p1 ≤ vSize (p1 - p0)) ∧
      (dot (p1 - p0) (input - p0) < 0 →
        dot (p1 - p0) (input - p0) * dot (p1 - p0) (input - p0) < vSize2 (p1 - p0)) ∧
      (vSize2 (p1 - p0) < dot (p1 - p0) (input - p0) →
        (dot (p1 - p0) (input - p0) - vSize2 (p1 - p0)) *
          (dot (p1 - p0) (input - p0) - vSize2 (p1 - p0)) < vSize2 (p1 - p0)) := by
  obtain ⟨poly, hget, hlt, hpt, hacc, _⟩ := findPolygonPointClosestTo_found pl input r h hf
  obtain ⟨_, hbefore, hbeyond⟩ := edgeAccepts_dot_bounds input _ _ hacc
  exact ⟨poly, _, _, hget, hlt, rfl, rfl, hpt, hacc.2.1, hbefore, hbeyond⟩

/-- Instance of C10 (amended) on the square: the query (1000,1000), a corner, is
matched to edge 2 at its end point. -/
theorem findPolygonPointClosestTo_foot_in_closed_span_witness :
    ∃ poly p0 p1, square.get? (0 : Int).toNat = some poly ∧ 2 < poly.length ∧
      p0 = edgeFrom poly 2 ∧ p1 = edgeTo poly 2 ∧
      (⟨1000, 1000⟩ : Point) = footPoint ⟨1000, 1000⟩ p0 p1 ∧
      (0 ≤ distOnLine ⟨1000, 1000⟩ p0 p1 ∧ distOnLine ⟨1000, 1000⟩ p0 p1 ≤ vSize (p1 - p0)) ∧
      (dot (p1 - p0) (⟨1000, 1000⟩ - p0) < 0 →
        dot (p1 - p0) (⟨1000, 1000⟩ - p0) * dot (p1 - p0) (⟨1000, 1000⟩ - p0) <
          vSize2 (p1 - p0)) ∧
      (vSize2 (p1 - p0) < dot (p1 - p0) (⟨1000, 1000⟩ - p0) →
        (dot (p1 - p0) (⟨1000, 1000⟩ - p0) - vSize2 (p1 - p0)) *
          (dot (p1 - p0) (⟨1000, 1000⟩ - p0) - vSize2 (p1 - p0)) < vSize2 (p1 - p0)) :=
  findPolygonPointClosestTo_foot_in_closed_span square ⟨1000, 1000⟩
    ⟨⟨1000, 1000⟩, 0, 2⟩ (by decide) (by decide)

/-! ## The degeneracy guard -/

/-- C8 (as stated, refuted): the edge from (0,0) to (1,1) has squared length 2 > 1
but integer length 1, so the guard of line 118 skips it: the edge test rejects the
query (0,0) although its projection is in range and within tolerance, and the
search on the polygon made of these two points finds nothing. -/
theorem edgeTest_skips_squared_length_two :
    vSize2 ((⟨1, 1⟩ : Point) - ⟨0, 0⟩) = 2 ∧ vSize ((⟨1, 1⟩ : Point) - ⟨0, 0⟩) = 1 ∧
      edgeTest ⟨0, 0⟩ ⟨0, 0⟩ ⟨1, 1⟩ = .ok none ∧
      (0 ≤ distOnLine ⟨0, 0⟩ ⟨0, 0⟩ ⟨1, 1⟩ ∧
        distOnLine ⟨0, 0⟩ ⟨0, 0⟩ ⟨1, 1⟩ ≤ vSize ((⟨1, 1⟩ : Point) - ⟨0, 0⟩)) ∧
      vSize2 (footPoint ⟨0, 0⟩ ⟨0, 0⟩ ⟨1, 1⟩ - ⟨0, 0⟩) ≤ 100 * 100 ∧
      findPolygonPointClosestTo [[⟨0, 0⟩, ⟨1, 1⟩]] ⟨0, 0⟩ = .ok ⟨⟨0, 0⟩, -1, 0⟩ := by
  decide

/-- C8 (amended): the search skips an edge as degenerate exactly when its integer
length is at most 1, that is when its squared length is at most 3: the guard of
line 118 passes if and only if the squared length is at least 4; an edge of
squared length at least 4 is a candidate, accepted exactly when its projection is
in range and within tolerance; an edge of squared length at most 3 is rejected by
the edge test and is never the edge of a found result. -/
theorem edgeTest_degenerate_iff (pl : Polygons) (input : Point) :
    (∀ p0 p1 : Point,
      (1 < vSize (p1 - p0) ↔ 4 ≤ vSize2 (p1 - p0)) ∧
      (vSize2 (p1 - p0) < 4 → edgeTest input p0 p1 = .ok none) ∧
      (4 ≤ vSize2 (p1 - p0) →
        edgeTest input p0 p1 =
          .ok (if (0 ≤ distOnLine input p0 p1 ∧ distOnLine input p0 p1 ≤ vSize (p1 - p0)) ∧
                  vSize2 (footPoint input p0 p1 - input) ≤ 100 * 100
               then some (footPoint input p0 p1) else none))) ∧
    (∀ r poly, findPolygonPointClosestTo pl input = .ok r → r.found →
      pl.get? r.polygonIdx.toNat = some poly →
      4 ≤ vSize2 (edgeTo poly r.pointIdx - edgeFrom poly r.pointIdx)) := by
  constructor
  · intro p0 p1
    refine ⟨vSize_gt_one_iff _, ?_, ?_⟩
    · intro hsmall
      have hno : ¬ edgeAccepts input p0 p1 := by
        intro hacc
        have := (vSize_gt_one_iff (p1 - p0)).1 hacc.1
        omega
      rw [edgeTest_eq]
      simp [hno]
    · intro hbig
      have hL := (vSize_gt_one_iff (p1 - p0)).2 hbig
      rw [edgeTest_eq]
      unfold edgeAccepts
      simp only [hL, true_and]
  · intro r poly h hf hget
    obtain ⟨poly1, hget1, _, _, hacc, _⟩ := findPolygonPointClosestTo_found pl input r h hf
    rw [hget] at hget1
    simp only [Option.some.injEq] at hget1
    subst hget1
    exact (vSize_gt_one_iff _).1 hacc.1

/-- Instance of C8 (amended) on the square: the edge matched by the query (500,0)
has squared length 1000000. -/
theorem edgeTest_degenerate_iff_witness :
    4 ≤ vSize2 (edgeTo squarePoly 1 - edgeFrom squarePoly 1) :=
  (edgeTest_degenerate_iff square ⟨500, 0⟩).2 ⟨⟨500, 0⟩, 0, 1⟩ squarePoly
    (by decide) (by decide) (by decide)

/-! ## Direction and length of the plan -/

/-- C1 (as stated, refuted): on the square, the touch points (500,0) on edge 1 and
(500,1000) on edge 3 give two paths of equal length 2000, and the plan goes
backward (`AtoB = false`) although `lenA <= lenB`. -/
theorem findPolygonGapCloser_tie_backward :
    findPolygonGapCloser square ⟨500, 0⟩ ⟨500, 1000⟩ = .ok ⟨2000, 0, 1, 3, false⟩ ∧
      gapLenA squarePoly 1 3 ⟨500, 0⟩ ⟨500, 1000⟩ = .ok 2000 ∧
      gapLenB squarePoly 1 3 ⟨500, 0⟩ ⟨500, 1000⟩ = .ok 2000 := by
  decide

/-- C1 (amended): when `findPolygonGapCloser` succeeds with the two touch points on
different edges of one polygon, both path lengths `lenA` and `lenB` are computed
and the direction flag `AtoB` is true if and only if `lenA < lenB`; on a tie the
backward direction is chosen. -/
theorem findPolygonGapCloser_direction (pl : Polygons) (ip0 ip1 : Point)
    (ret : GapCloserResult) (h : findPolygonGapCloser pl ip0 ip1 = .ok ret)
    (hs : ret.len ≠ -1) (hAB : ret.pointIdxA ≠ ret.pointIdxB) :
    ∃ poly lenA lenB, pl.get? ret.polygonIdx.toNat = some poly ∧
      gapLenA poly ret.pointIdxA ret.pointIdxB ip0 ip1 = .ok lenA ∧
      gapLenB poly ret.pointIdxA ret.pointIdxB ip0 ip1 = .ok lenB ∧
      (ret.AtoB = true ↔ lenA < lenB) ∧ (lenA = lenB → ret.AtoB = false) := by
  obtain ⟨c1, c2, _, _, hc⟩ := findPolygonGapCloser_inv pl ip0 ip1 ret h
  rcases hc with ⟨_, hr⟩ | ⟨_, _, hplan⟩
  · rw [hr] at hs
    simp at hs
  · obtain ⟨hi, hA, hB, hcase⟩ := gapCloserPlan_inv _ _ _ _ _ _ _ hplan
    rcases hcase with ⟨hEq, _, _⟩ | ⟨_, poly, lenA, lenB, hget, hlA, hlB, _, hdir⟩
    · rw [hA, hB] at hAB
      exact absurd hEq hAB
    · refine ⟨poly, lenA, lenB, by rw [hi]; exact hget, by rw [hA, hB]; exact hlA,
        by rw [hA, hB]; exact hlB, by rw [hdir]; simp, ?_⟩
      intro hEq
      rw [hdir]
      simp [hEq]

/-- Instance of C1 (amended) on the square: from (500,0) on edge 1 to (1000,500)
on edge 2 the forward path (1000) is shorter than the backward one (3000). -/
theorem findPolygonGapCloser_direction_witness :
    ∃ poly lenA lenB, square.get? (0 : Int).toNat = some poly ∧
      gapLenA poly 1 2 ⟨500, 0⟩ ⟨1000, 500⟩ = .ok lenA ∧
      gapLenB poly 1 2 ⟨500, 0⟩ ⟨1000, 500⟩ = .ok lenB ∧
      (true = true ↔ lenA < lenB) ∧ (lenA = lenB → true = false) :=
  findPolygonGapCloser_direction square ⟨500, 0⟩ ⟨1000, 500⟩ ⟨1000, 0, 1, 2, true⟩
    (by decide) (by decide) (by decide)

/-- C9: when `findPolygonGapCloser` succeeds with the two touch points on different
edges, the returned `len` is the minimum of the forward length `lenA` and the
backward length `lenB`, and the direction flag designates a path of that length:
`len = lenA` when `AtoB` is true, `len = lenB` when it is false. -/
theorem findPolygonGapCloser_len_min (pl : Polygons) (ip0 ip1 : Point)
    (ret : GapCloserResult) (h : findPolygonGapCloser pl ip0 ip1 = .ok ret)
    (hs : ret.len ≠ -1) (hAB : ret.pointIdxA ≠ ret.pointIdxB) :
    ∃ poly lenA lenB, pl.get? ret.polygonIdx.toNat = some poly ∧
      gapLenA poly ret.pointIdxA ret.pointIdxB ip0 ip1 = .ok lenA ∧
      gapLenB poly ret.pointIdxA ret.pointIdxB ip0 ip1 = .ok lenB ∧
      ret.len = min lenA lenB ∧
      (ret.AtoB = true → ret.len = lenA) ∧ (ret.AtoB = false → ret.len = lenB) := by
  obtain ⟨c1, c2, _, _, hc⟩ := findPolygonGapCloser_inv pl ip0 ip1 ret h
  rcases hc with ⟨_, hr⟩ | ⟨_, _, hplan⟩
  · rw [hr] at hs
    simp at hs
  · obtain ⟨hi, hA, hB, hcase⟩ := gapCloserPlan_inv _ _ _ _ _ _ _ hplan
    rcases hcase with ⟨hEq, _, _⟩ | ⟨_, poly, lenA, lenB, hget, hlA, hlB, hlen, hdir⟩
    · rw [hA, hB] at hAB
      exact absurd hEq hAB
    · refine ⟨poly, lenA, lenB, by rw [hi]; exact hget, by rw [hA, hB]; exact hlA,
        by rw [hA, hB]; exact hlB, ?_, ?_, ?_⟩
      · rw [hlen]
        by_cases hlt : lenA < lenB
        · simp [hlt, min_eq_left (le_of_lt hlt)]
        · simp [hlt, min_eq_right (not_lt.1 hlt)]
      · intro ht
        rw [hdir] at ht
        simp only [decide_eq_true_eq] at ht
        rw [hlen]
        simp [ht]
      · intro hf
        rw [hdir] at hf
        simp only [decide_eq_false_iff_not] at hf
        rw [hlen]
        simp [hf]

/-- Instance of C9 on the square: from (500,0) on edge 1 to (0,500) on edge 0 the
backward path (1000) is shorter than the forward one (3000). -/
theorem findPolygonGapCloser_len_min_witness :
    ∃ poly lenA lenB, square.get? (0 : Int).toNat = some poly ∧
      gapLenA poly 1 0 ⟨500, 0⟩ ⟨0, 500⟩ = .ok lenA ∧
      gapLenB poly 1 0 ⟨500, 0⟩ ⟨0, 500⟩ = .ok lenB ∧
      (1000 : Int) = min lenA lenB ∧
      (false = true → (1000 : Int) = lenA) ∧ (false = false → (1000 : Int) = lenB) :=
  findPolygonGapCloser_len_min square ⟨500, 0⟩ ⟨0, 500⟩ ⟨1000, 0, 1, 0, false⟩
    (by decide) (by decide) (by decide)

/-! ## Failure of the plan -/

/-- C2: once both searches have returned, `findPolygonGapCloser` returns, and it
reports failure (`len = -1`) if and only if the search for `ip0` found nothing, or
the search for `ip1` found nothing, or they found different polygon indices; on
success the reported `polygonIdx` is the index found for `ip0` and for `ip1`. -/
theorem findPolygonGapCloser_fails_iff (pl : Polygons) (ip0 ip1 : Point)
    (c1 c2 : ClosePolygonResult)
    (h1 : findPolygonPointClosestTo pl ip0 = .ok c1)
    (h2 : findPolygonPointClosestTo pl ip1 = .ok c2) :
    ∃ ret, findPolygonGapCloser pl ip0 ip1 = .ok ret ∧
      (ret.len = -1 ↔
        (c1.polygonIdx = -1 ∨ c2.polygonIdx = -1 ∨ c1.polygonIdx ≠ c2.polygonIdx)) ∧
      (ret.len ≠ -1 → ret.polygonIdx = c1.polygonIdx ∧ ret.polygonIdx = c2.polygonIdx) := by
  rw [findPolygonGapCloser_eq pl ip0 ip1 c1 c2 h1 h2]
  by_cases hc : c1.polygonIdx < 0 ∨ c1.polygonIdx ≠ c2.polygonIdx
  · simp only [hc, if_true]
    refine ⟨_, rfl, ?_, by simp⟩
    simp only [true_iff]
    rcases hc with hneg | hne
    · exact Or.inl (findPolygonPointClosestTo_notFound pl ip0 c1 h1 hneg).1
    · exact Or.inr (Or.inr hne)
  · simp only [hc, if_false]
    have hf1 : 0 ≤ c1.polygonIdx := by omega
    have hEq : c1.polygonIdx = c2.polygonIdx := by omega
    obtain ⟨poly, hget, hA, _⟩ := findPolygonPointClosestTo_found pl ip0 c1 h1 hf1
    obtain ⟨poly2, hget2, hB, _⟩ :=
      findPolygonPointClosestTo_found pl ip1 c2 h2 (by omega)
    rw [← hEq, hget] at hget2
    simp only [Option.some.injEq] at hget2
    subst hget2
    obtain ⟨ret, hret⟩ :=
      gapCloserPlan_ok pl c1.polygonIdx c1.pointIdx c2.pointIdx ip0 ip1 poly hget hA hB
    have hnn := gapCloserPlan_len_nonneg _ _ _ _ _ _ _ hret
    obtain ⟨hi, _⟩ := gapCloserPlan_inv _ _ _ _ _ _ _ hret
    refine ⟨ret, hret, ?_, fun _ => ⟨hi, by rw [hi, hEq]⟩⟩
    constructor
    · intro hl; omega
    · rintro (h | h | h) <;> omega

/-- Instance of C2 on the square: (500,0) is found on polygon 0 and (5000,5000) is
not found, so the plan fails. -/
theorem findPolygonGapCloser_fails_iff_witness :
    ∃ ret, findPolygonGapCloser square ⟨500, 0⟩ ⟨5000, 5000⟩ = .ok ret ∧
      (ret.len = -1 ↔ ((0 : Int) = -1 ∨ (-1 : Int) = -1 ∨ (0 : Int) ≠ -1)) ∧
      (ret.len ≠ -1 → ret.polygonIdx = 0 ∧ ret.polygonIdx = -1) :=
  findPolygonGapCloser_fails_iff square ⟨500, 0⟩ ⟨5000, 5000⟩ ⟨⟨500, 0⟩, 0, 1⟩ ⟨⟨0, 0⟩, -1, 0⟩
    (by decide) (by decide)

/-! ## The walking loop, vertex by vertex -/

theorem vSize_self (p : Point) : vSize (p - p) = 0 := by
  have h : vSize2 (p - p) = 0 := by
    unfold vSize2
    simp
  unfold vSize
  rw [h]
  rfl

theorem vSize_swap (p q : Point) : vSize (p - q) = vSize (q - p) := by
  have h : vSize2 (p - q) = vSize2 (q - p) := by
    unfold vSize2
    simp only [Point.sub_X, Point.sub_Y]
    ring
  unfold vSize
  rw [h]

theorem arcVertices_succ (poly : List Point) (i m : Nat) (hi : i < poly.length) :
    arcVertices poly i (m + 1) =
      poly.getD i default :: arcVertices poly ((i + 1) % poly.length) m := by
  unfold arcVertices
  rw [List.range_succ_eq_map]
  simp only [List.map_cons, List.map_map, Nat.add_zero, Nat.mod_eq_of_lt hi]
  congr 1
  apply List.map_congr_left
  intro k _
  simp only [Function.comp, Nat.mod_add_mod]
  congr 2
  omega

theorem walk_arc (poly : List Point) (stop : Nat) :
    ∀ (m fuel i : Nat) (p0 : Point) (len : Int), i < poly.length → m ≤ fuel →
    (∀ j, j < m → (i + j) % poly.length ≠ stop) → (i + m) % poly.length = stop →
    walk poly stop fuel i p0 len =
      .ok ((arcVertices poly i m).getLastD p0, len + chainLen (p0 :: arcVertices poly i m)) := by
  intro m
  induction m with
  | zero =>
    intro fuel i p0 len hi _ _ hstop
    have hEq : i = stop := by
      rw [Nat.add_zero, Nat.mod_eq_of_lt hi] at hstop
      exact hstop
    cases fuel <;> simp [walk, hEq, arcVertices, chainLen]
  | succ m ih =>
    intro fuel i p0 len hi hfuel hne hstop
    have hi0 : i ≠ stop := by
      have := hne 0 (by omega)
      rwa [Nat.add_zero, Nat.mod_eq_of_lt hi] at this
    obtain ⟨fuel, rfl⟩ : ∃ f, fuel = f + 1 := ⟨fuel - 1, by omega⟩
    have hlt : (i + 1) % poly.length < poly.length := Nat.mod_lt _ (by omega)
    unfold walk
    simp only [hi0, if_false]
    rw [readPoint_of_lt poly i hi]
    simp only
    rw [ih fuel ((i + 1) % poly.length) (poly.getD i default) _ hlt (by omega)
      (fun j hj => by
        rw [Nat.mod_add_mod, Nat.add_assoc, Nat.add_comm 1 j]
        exact hne (j + 1) (by omega))
      (by rw [Nat.mod_add_mod, Nat.add_assoc, Nat.add_comm 1 m]; exact hstop)]
    rw [arcVertices_succ poly i m hi]
    simp only [List.getLastD_cons, chainLen]
    congr 2
    omega

theorem mod_of_wrap (x n : Nat) (h1 : n ≤ x) (h2 : x < n + n) : x % n = x - n := by
  rw [Nat.mod_eq_sub_mod h1, Nat.mod_eq_of_lt (by omega)]

theorem arcSteps_spec (n A B : Nat) (hA : A < n) (hB : B < n) :
    (B + n - A) % n = stepsTo n A B ∧ (B + n - A) % n < n ∧
      (A + (B + n - A) % n) % n = B ∧
      (∀ j, j < (B + n - A) % n → (A + j) % n ≠ B) ∧
      (A ≠ B → 0 < (B + n - A) % n ∧
        (A + (B + n - A) % n - 1) % n = (B + n - 1) % n) := by
  by_cases hle : A ≤ B
  · have hm : (B + n - A) % n = B - A := by
      rw [mod_of_wrap _ _ (by omega) (by omega)]
      omega
    rw [hm]
    refine ⟨by unfold stepsTo; simp [hle], by omega, ?_, ?_, ?_⟩
    · rw [Nat.mod_eq_of_lt (by omega)]
      omega
    · intro j hj
      rw [Nat.mod_eq_of_lt (by omega)]
      omega
    · intro hne
      refine ⟨by omega, ?_⟩
      rw [Nat.mod_eq_of_lt (by omega), mod_of_wrap _ _ (by omega) (by omega)]
      omega
  · have hm : (B + n - A) % n = B + n - A := Nat.mod_eq_of_lt (by omega)
    rw [hm]
    refine ⟨by unfold stepsTo; simp [hle], by omega, ?_, ?_, ?_⟩
    · rw [mod_of_wrap _ _ (by omega) (by omega)]
      omega
    · intro j hj
      by_cases hw : A + j < n
      · rw [Nat.mod_eq_of_lt hw]
        omega
      · rw [mod_of_wrap _ _ (by omega) (by omega)]
        omega
    · intro _
      refine ⟨by omega, ?_⟩
      congr 1
      omega

theorem arcVertices_getLastD (poly : List Point) (A m : Nat) (p0 : Point) (hm : 0 < m) :
    (arcVertices poly A m).getLastD p0 = poly.getD ((A + m - 1) % poly.length) default := by
  obtain ⟨k, rfl⟩ : ∃ k, m = k + 1 := ⟨m - 1, by omega⟩
  unfold arcVertices
  rw [List.range_succ, List.map_append, List.map_singleton, List.getLastD_concat]
  rfl

theorem arcVertices_chain (poly : List Point) (A m : Nat) (hA : A < poly.length)
    (hm : 0 < m) :
    chainLen (poly.getD A default :: arcVertices poly A m) = chainLen (arcVertices poly A m) := by
  obtain ⟨k, rfl⟩ : ∃ k, m = k + 1 := ⟨m - 1, by omega⟩
  rw [arcVertices_succ poly A k hA]
  simp [chainLen, vSize_self]

theorem gapLenA_eq (poly : List Point) (A B : Nat) (ip0 ip1 : Point)
    (hA : A < poly.length) (hB : B < poly.length) (hAB : A ≠ B) :
    gapLenA poly A B ip0 ip1 =
      .ok (vSize (poly.getD A default - ip0) +
        chainLen (arcVertices poly A ((B + poly.length - A) % poly.length)) +
        vSize (poly.getD ((B + poly.length - 1) % poly.length) default - ip1)) := by
  obtain ⟨_, hlt, hreach, hfirst, hpos⟩ := arcSteps_spec poly.length A B hA hB
  obtain ⟨hm, hlast⟩ := hpos hAB
  unfold gapLenA
  rw [readPoint_of_lt poly A hA]
  simp only
  rw [walk_arc poly B _ poly.length A _ _ hA (Nat.le_of_lt hlt) hfirst hreach]
  simp only
  rw [arcVertices_getLastD poly A _ _ hm, arcVertices_chain poly A _ hA hm, hlast]

theorem gapLenB_eq_gapLenA (poly : List Point) (A B : Nat) (ip0 ip1 : Point) :
    gapLenB poly A B ip0 ip1 = gapLenA poly B A ip1 ip0 := rfl

/-- C11: on a successful `findPolygonGapCloser` call with touch points on different
edges `A != B` of a polygon `P` of size `n`, the forward length computed is
`|P[A] - ip0|`, plus the sum of the distances between the consecutive vertices
`P[A], P[A+1], ..., P[B-1]` (the `(B - A) mod n` vertices from `A` on, indices
modulo `n`), plus `|P[B-1 mod n] - ip1|`; the backward length is the same
expression with `(A, ip0)` and `(B, ip1)` exchanged; `|.|` is `vSize`. -/
theorem findPolygonGapCloser_path_lengths (pl : Polygons) (ip0 ip1 : Point)
    (ret : GapCloserResult) (h : findPolygonGapCloser pl ip0 ip1 = .ok ret)
    (hs : ret.len ≠ -1) (hAB : ret.pointIdxA ≠ ret.pointIdxB) :
    ∃ poly, pl.get? ret.polygonIdx.toNat = some poly ∧
      ret.pointIdxA < poly.length ∧ ret.pointIdxB < poly.length ∧
      gapLenA poly ret.pointIdxA ret.pointIdxB ip0 ip1 =
        .ok (vSize (poly.getD ret.pointIdxA default - ip0) +
          chainLen (arcVertices poly ret.pointIdxA
            ((ret.pointIdxB + poly.length - ret.pointIdxA) % poly.length)) +
          vSize (poly.getD ((ret.pointIdxB + poly.length - 1) % poly.length) default - ip1)) ∧
      gapLenB poly ret.pointIdxA ret.pointIdxB ip0 ip1 =
        .ok (vSize (poly.getD ret.pointIdxB default - ip1) +
          chainLen (arcVertices poly ret.pointIdxB
            ((ret.pointIdxA + poly.length - ret.pointIdxB) % poly.length)) +
          vSize (poly.getD ((ret.pointIdxA + poly.length - 1) % poly.length) default - ip0)) := by
  obtain ⟨c1, c2, h1, h2, hc⟩ := findPolygonGapCloser_inv pl ip0 ip1 ret h
  rcases hc with ⟨_, hr⟩ | ⟨hf, hEq, hplan⟩
  · rw [hr] at hs
    simp at hs
  · obtain ⟨hi, hA, hB, _⟩ := gapCloserPlan_inv _ _ _ _ _ _ _ hplan
    obtain ⟨poly, hget, hltA, _⟩ := findPolygonPointClosestTo_found pl ip0 c1 h1 hf
    obtain ⟨poly2, hget2, hltB, _⟩ :=
      findPolygonPointClosestTo_found pl ip1 c2 h2 (by omega)
    rw [← hEq, hget] at hget2
    simp only [Option.some.injEq] at hget2
    subst hget2
    rw [hi, hA, hB]
    rw [hA, hB] at hAB
    refine ⟨poly, hget, hltA, hltB, gapLenA_eq poly _ _ ip0 ip1 hltA hltB hAB, ?_⟩
    rw [gapLenB_eq_gapLenA]
    exact gapLenA_eq poly _ _ ip1 ip0 hltB hltA (Ne.symm hAB)

/-- Instance of C11 on the square: from (500,0) on edge 1 to (500,1000) on edge 3
the forward path runs over the vertices 1 and 2 and the backward path over the
vertices 3 and 0. -/
theorem findPolygonGapCloser_path_lengths_witness :
    ∃ poly, square.get? (0 : Int).toNat = some poly ∧ 1 < poly.length ∧ 3 < poly.length ∧
      gapLenA poly 1 3 ⟨500, 0⟩ ⟨500, 1000⟩ =
        .ok (vSize (poly.getD 1 default - ⟨500, 0⟩) +
          chainLen (arcVertices poly 1 ((3 + poly.length - 1) % poly.length)) +
          vSize (poly.getD ((3 + poly.length - 1) % poly.length) default - ⟨500, 1000⟩)) ∧
      gapLenB poly 1 3 ⟨500, 0⟩ ⟨500, 1000⟩ =
        .ok (vSize (poly.getD 3 default - ⟨500, 1000⟩) +
          chainLen (arcVertices poly 3 ((1 + poly.length - 3) % poly.length)) +
          vSize (poly.getD ((1 + poly.length - 1) % poly.length) default - ⟨500, 0⟩)) :=
  findPolygonGapCloser_path_lengths square ⟨500, 0⟩ ⟨500, 1000⟩ ⟨2000, 0, 1, 3, false⟩
    (by decide) (by decide) (by decide)

/-- The vertices and lengths of the two paths in the instance above. -/
theorem square_path_vertices :
    arcVertices squarePoly 1 ((3 + 4 - 1) % 4) = [⟨1000, 0⟩, ⟨1000, 1000⟩] ∧
      arcVertices squarePoly 3 ((1 + 4 - 3) % 4) = [⟨0, 1000⟩, ⟨0, 0⟩] ∧
      chainLen [⟨1000, 0⟩, ⟨1000, 1000⟩] = 1000 ∧
      gapLenA squarePoly 1 3 ⟨500, 0⟩ ⟨500, 1000⟩ = .ok (500 + 1000 + 500) := by
  decide

/-! ## Touch points on one edge, and the sign of the length -/

theorem findPolygonGapCloser_resolved (pl : Polygons) (ip0 ip1 : Point)
    (c1 c2 : ClosePolygonResult)
    (h1 : findPolygonPointClosestTo pl ip0 = .ok c1)
    (h2 : findPolygonPointClosestTo pl ip1 = .ok c2)
    (hf : c1.found) (hEq : c1.polygonIdx = c2.polygonIdx) :
    ∃ ret poly, findPolygonGapCloser pl ip0 ip1 = .ok ret ∧
      gapCloserPlan pl c1.polygonIdx c1.pointIdx c2.pointIdx ip0 ip1 = .ok ret ∧
      pl.get? c1.polygonIdx.toNat = some poly ∧
      c1.pointIdx < poly.length ∧ c2.pointIdx < poly.length := by
  have hf0 : 0 ≤ c1.polygonIdx := hf
  obtain ⟨poly, hget, hA, _⟩ := findPolygonPointClosestTo_found pl ip0 c1 h1 hf0
  obtain ⟨poly2, hget2, hB, _⟩ := findPolygonPointClosestTo_found pl ip1 c2 h2 (by omega)
  rw [← hEq, hget] at hget2
  simp only [Option.some.injEq] at hget2
  subst hget2
  obtain ⟨ret, hret⟩ :=
    gapCloserPlan_ok pl c1.polygonIdx c1.pointIdx c2.pointIdx ip0 ip1 poly hget hA hB
  refine ⟨ret, poly, ?_, hret, hget, hA, hB⟩
  rw [findPolygonGapCloser_eq pl ip0 ip1 c1 c2 h1 h2]
  have hc : ¬ (c1.polygonIdx < 0 ∨ c1.polygonIdx ≠ c2.polygonIdx) := by omega
  simp only [hc, if_false]
  exact hret

/-- C12: when the two touch points are found on the same edge of the same polygon
(same `polygonIdx`, `pointIdxA = pointIdxB`), `findPolygonGapCloser` succeeds with
`len` the integer length of `ip0 - ip1` and `AtoB = true`; the plan is the same
whatever the polygon list, no vertex being read. -/
theorem findPolygonGapCloser_same_edge (pl : Polygons) (ip0 ip1 : Point)
    (c1 c2 : ClosePolygonResult)
    (h1 : findPolygonPointClosestTo pl ip0 = .ok c1)
    (h2 : findPolygonPointClosestTo pl ip1 = .ok c2)
    (hf : c1.found) (hEq : c1.polygonIdx = c2.polygonIdx) (hpt : c1.pointIdx = c2.pointIdx) :
    findPolygonGapCloser pl ip0 ip1 =
        .ok ⟨vSize (ip0 - ip1), c1.polygonIdx, c1.pointIdx, c2.pointIdx, true⟩ ∧
      vSize (ip0 - ip1) ≠ -1 ∧
      ∀ pl0 : Polygons, gapCloserPlan pl0 c1.polygonIdx c1.pointIdx c2.pointIdx ip0 ip1 =
        .ok ⟨vSize (ip0 - ip1), c1.polygonIdx, c1.pointIdx, c2.pointIdx, true⟩ := by
  have hplan : ∀ pl0 : Polygons,
      gapCloserPlan pl0 c1.polygonIdx c1.pointIdx c2.pointIdx ip0 ip1 =
        .ok ⟨vSize (ip0 - ip1), c1.polygonIdx, c1.pointIdx, c2.pointIdx, true⟩ := by
    intro pl0
    unfold gapCloserPlan
    simp [hpt]
  have hf0 : 0 ≤ c1.polygonIdx := hf
  have hc : ¬ (c1.polygonIdx < 0 ∨ c1.polygonIdx ≠ c2.polygonIdx) := by omega
  refine ⟨?_, ?_, hplan⟩
  · rw [findPolygonGapCloser_eq pl ip0 ip1 c1 c2 h1 h2]
    simp only [hc, if_false]
    exact hplan pl
  · have := vSize_nonneg (ip0 - ip1)
    omega

/-- Instance of C12 on the square: (500,0) and (600,0) are both found on edge 1. -/
theorem findPolygonGapCloser_same_edge_witness :
    findPolygonGapCloser square ⟨500, 0⟩ ⟨600, 0⟩ =
        .ok ⟨vSize ((⟨500, 0⟩ : Point) - ⟨600, 0⟩), 0, 1, 1, true⟩ ∧
      vSize ((⟨500, 0⟩ : Point) - ⟨600, 0⟩) ≠ -1 ∧
      ∀ pl0 : Polygons, gapCloserPlan pl0 0 1 1 ⟨500, 0⟩ ⟨600, 0⟩ =
        .ok ⟨vSize ((⟨500, 0⟩ : Point) - ⟨600, 0⟩), 0, 1, 1, true⟩ :=
  findPolygonGapCloser_same_edge square ⟨500, 0⟩ ⟨600, 0⟩ ⟨⟨500, 0⟩, 0, 1⟩ ⟨⟨600, 0⟩, 0, 1⟩
    (by decide) (by decide) (by decide) (by decide) (by decide)

/-- C16: the failure sentinel is unambiguous: once both searches have returned,
`findPolygonGapCloser` returns; if both endpoints resolve to the same polygon the
returned `len` is non-negative; and a negative `len` is `-1` and occurs only when
the first search found nothing or the polygon indices differ. -/
theorem findPolygonGapCloser_len_sentinel (pl : Polygons) (ip0 ip1 : Point)
    (c1 c2 : ClosePolygonResult)
    (h1 : findPolygonPointClosestTo pl ip0 = .ok c1)
    (h2 : findPolygonPointClosestTo pl ip1 = .ok c2) :
    ∃ ret, findPolygonGapCloser pl ip0 ip1 = .ok ret ∧
      (c1.found ∧ c1.polygonIdx = c2.polygonIdx → 0 ≤ ret.len) ∧
      (ret.len < 0 → ret.len = -1 ∧ (¬ c1.found ∨ c1.polygonIdx ≠ c2.polygonIdx)) := by
  by_cases hres : c1.found ∧ c1.polygonIdx = c2.polygonIdx
  · obtain ⟨ret, poly, hret, hplan, _⟩ :=
      findPolygonGapCloser_resolved pl ip0 ip1 c1 c2 h1 h2 hres.1 hres.2
    have hnn := gapCloserPlan_len_nonneg _ _ _ _ _ _ _ hplan
    exact ⟨ret, hret, fun _ => hnn, fun hneg => by omega⟩
  · have hc : c1.polygonIdx < 0 ∨ c1.polygonIdx ≠ c2.polygonIdx := by
      unfold ClosePolygonResult.found at hres
      omega
    refine ⟨⟨-1, 0, 0, 0, false⟩, ?_, fun h => absurd h hres, fun _ => ⟨rfl, ?_⟩⟩
    · rw [findPolygonGapCloser_eq pl ip0 ip1 c1 c2 h1 h2]
      simp only [hc, if_true]
    · unfold ClosePolygonResult.found
      omega

/-- Instance of C16 on the square: (500,0) and (1000,500) resolve to polygon 0 and
the length is 1000. -/
theorem findPolygonGapCloser_len_sentinel_witness :
    ∃ ret, findPolygonGapCloser square ⟨500, 0⟩ ⟨1000, 500⟩ = .ok ret ∧
      ((⟨⟨500, 0⟩, 0, 1⟩ : ClosePolygonResult).found ∧ (0 : Int) = 0 → 0 ≤ ret.len) ∧
      (ret.len < 0 → ret.len = -1 ∧
        (¬ (⟨⟨500, 0⟩, 0, 1⟩ : ClosePolygonResult).found ∨ (0 : Int) ≠ 0)) :=
  findPolygonGapCloser_len_sentinel square ⟨500, 0⟩ ⟨1000, 500⟩ ⟨⟨500, 0⟩, 0, 1⟩
    ⟨⟨1000, 500⟩, 0, 2⟩ (by decide) (by decide)

/-! ## Exchanging the two endpoints -/

theorem gapCloserPlan_swap (pl : Polygons) (idx : Int) (A B : Nat) (ip0 ip1 : Point)
    (ret ret1 : GapCloserResult)
    (h : gapCloserPlan pl idx A B ip0 ip1 = .ok ret)
    (h1 : gapCloserPlan pl idx B A ip1 ip0 = .ok ret1) :
    ret1.polygonIdx = ret.polygonIdx ∧ ret1.len = ret.len ∧
      ret1.pointIdxA = ret.pointIdxB ∧ ret1.pointIdxB = ret.pointIdxA := by
  obtain ⟨hi, hA, hB, hc⟩ := gapCloserPlan_inv _ _ _ _ _ _ _ h
  obtain ⟨hi1, hA1, hB1, hc1⟩ := gapCloserPlan_inv _ _ _ _ _ _ _ h1
  refine ⟨by rw [hi, hi1], ?_, by rw [hA1, hB], by rw [hB1, hA]⟩
  rcases hc with ⟨hEq, hl, _⟩ | ⟨hne, poly, lenA, lenB, hget, hlA, hlB, hl, _⟩
  · rcases hc1 with ⟨_, hl1, _⟩ | ⟨hne1, _⟩
    · rw [hl, hl1]
      exact vSize_swap ip1 ip0
    · exact absurd hEq.symm hne1
  · rcases hc1 with ⟨hEq1, _, _⟩ | ⟨_, poly1, lenA1, lenB1, hget1, hlA1, hlB1, hl1, _⟩
    · exact absurd hEq1.symm hne
    · rw [hget] at hget1
      simp only [Option.some.injEq] at hget1
      subst hget1
      have e1 : lenA1 = lenB := by
        have : gapLenA poly B A ip1 ip0 = gapLenB poly A B ip0 ip1 := rfl
        rw [this, hlB] at hlA1
        simp only [Except.ok.injEq] at hlA1
        exact hlA1.symm
      have e2 : lenB1 = lenA := by
        have : gapLenB poly B A ip1 ip0 = gapLenA poly A B ip0 ip1 := rfl
        rw [this, hlA] at hlB1
        simp only [Except.ok.injEq] at hlB1
        exact hlB1.symm
      rw [hl, hl1, e1, e2]
      split <;> split <;> omega

/-- C15: `findPolygonGapCloser` is symmetric in its two endpoints: on a polygon list
whose polygons are all non-empty both calls return, the call with `(ip0, ip1)`
succeeds if and only if the call with `(ip1, ip0)` succeeds, and when they succeed
they report the same `polygonIdx` and the same `len`, with `pointIdxA` and
`pointIdxB` exchanged. -/
theorem findPolygonGapCloser_symmetric (pl : Polygons) (ip0 ip1 : Point)
    (hne : ∀ poly ∈ pl, poly ≠ []) :
    ∃ ret ret1, findPolygonGapCloser pl ip0 ip1 = .ok ret ∧
      findPolygonGapCloser pl ip1 ip0 = .ok ret1 ∧
      (ret.len ≠ -1 ↔ ret1.len ≠ -1) ∧
      (ret.len ≠ -1 → ret1.polygonIdx = ret.polygonIdx ∧ ret1.len = ret.len ∧
        ret1.pointIdxA = ret.pointIdxB ∧ ret1.pointIdxB = ret.pointIdxA) := by
  obtain ⟨c1, h1⟩ := findPolygonPointClosestTo_ok pl ip0 hne
  obtain ⟨c2, h2⟩ := findPolygonPointClosestTo_ok pl ip1 hne
  by_cases hres : c1.found ∧ c1.polygonIdx = c2.polygonIdx
  · have hf2 : c2.found := by
      have := hres.1
      unfold ClosePolygonResult.found at this ⊢
      omega
    obtain ⟨ret, _, hret, hplan, _⟩ :=
      findPolygonGapCloser_resolved pl ip0 ip1 c1 c2 h1 h2 hres.1 hres.2
    obtain ⟨ret1, _, hret1, hplan1, _⟩ :=
      findPolygonGapCloser_resolved pl ip1 ip0 c2 c1 h2 h1 hf2 hres.2.symm
    rw [← hres.2] at hplan1
    have hnn := gapCloserPlan_len_nonneg _ _ _ _ _ _ _ hplan
    have hnn1 := gapCloserPlan_len_nonneg _ _ _ _ _ _ _ hplan1
    exact ⟨ret, ret1, hret, hret1, ⟨fun _ => by omega, fun _ => by omega⟩,
      fun _ => gapCloserPlan_swap _ _ _ _ _ _ _ _ hplan hplan1⟩
  · have hc : c1.polygonIdx < 0 ∨ c1.polygonIdx ≠ c2.polygonIdx := by
      unfold ClosePolygonResult.found at hres
      omega
    have hc1 : c2.polygonIdx < 0 ∨ c2.polygonIdx ≠ c1.polygonIdx := by omega
    refine ⟨⟨-1, 0, 0, 0, false⟩, ⟨-1, 0, 0, 0, false⟩, ?_, ?_, by simp, by simp⟩
    · rw [findPolygonGapCloser_eq pl ip0 ip1 c1 c2 h1 h2]
      simp only [hc, if_true]
    · rw [findPolygonGapCloser_eq pl ip1 ip0 c2 c1 h2 h1]
      simp only [hc1, if_true]

/-- Instance of C15 on the square, for the endpoints (500,0) and (1000,500). -/
theorem findPolygonGapCloser_symmetric_witness :
    ∃ ret ret1, findPolygonGapCloser square ⟨500, 0⟩ ⟨1000, 500⟩ = .ok ret ∧
      findPolygonGapCloser square ⟨1000, 500⟩ ⟨500, 0⟩ = .ok ret1 ∧
      (ret.len ≠ -1 ↔ ret1.len ≠ -1) ∧
      (ret.len ≠ -1 → ret1.polygonIdx = ret.polygonIdx ∧ ret1.len = ret.len ∧
        ret1.pointIdxA = ret.pointIdxB ∧ ret1.pointIdxB = ret.pointIdxA) :=
  findPolygonGapCloser_symmetric square ⟨500, 0⟩ ⟨1000, 500⟩ (by decide)

/-- The two runs of the instance above: same polygon, same length, point indices
exchanged; the direction flag differs. -/
theorem square_swapped_runs :
    findPolygonGapCloser square ⟨500, 0⟩ ⟨1000, 500⟩ = .ok ⟨1000, 0, 1, 2, true⟩ ∧
      findPolygonGapCloser square ⟨1000, 500⟩ ⟨500, 0⟩ = .ok ⟨1000, 0, 2, 1, false⟩ := by
  decide

/-! ## Reads in range, divisors greater than one -/

theorem edgeTestStrict_eq (input p0 p1 : Point) :
    edgeTestStrict input p0 p1 = edgeTest input p0 p1 := by
  unfold edgeTestStrict edgeTest
  by_cases hL : 1 < vSize (p1 - p0)
  · have hne : vSize (p1 - p0) ≠ 0 := by omega
    simp only [gt_iff_lt, hL, if_true, strictDiv, cdiv, hne, if_false, Point.strictDivide,
      Point.divide]
  · simp [hL]

theorem findPolygonGapCloser_ok (pl : Polygons) (ip0 ip1 : Point)
    (c1 c2 : ClosePolygonResult)
    (h1 : findPolygonPointClosestTo pl ip0 = .ok c1)
    (h2 : findPolygonPointClosestTo pl ip1 = .ok c2) :
    ∃ ret, findPolygonGapCloser pl ip0 ip1 = .ok ret := by
  by_cases hres : c1.found ∧ c1.polygonIdx = c2.polygonIdx
  · obtain ⟨ret, _, hret, _⟩ :=
      findPolygonGapCloser_resolved pl ip0 ip1 c1 c2 h1 h2 hres.1 hres.2
    exact ⟨ret, hret⟩
  · have hc : c1.polygonIdx < 0 ∨ c1.polygonIdx ≠ c2.polygonIdx := by
      unfold ClosePolygonResult.found at hres
      omega
    refine ⟨⟨-1, 0, 0, 0, false⟩, ?_⟩
    rw [findPolygonGapCloser_eq pl ip0 ip1 c1 c2 h1 h2]
    simp only [hc, if_true]

/-- C13: on a polygon list whose polygons all have at least one point,
`findPolygonPointClosestTo` returns without reading out of range and without
dividing by zero; its edge test is unchanged when every division by a divisor not
greater than 1 is made a fault; a found result has `polygonIdx` below the number
of polygons and `pointIdx` below the size of that polygon; and
`findPolygonGapCloser` returns without a fault on the indices it obtains. -/
theorem findPolygonPointClosestTo_safe (pl : Polygons) (input : Point)
    (hne : ∀ poly ∈ pl, poly ≠ []) :
    (∃ r, findPolygonPointClosestTo pl input = .ok r ∧
      (r.found → r.polygonIdx < (pl.length : Int) ∧
        ∃ poly, pl.get? r.polygonIdx.toNat = some poly ∧ r.pointIdx < poly.length)) ∧
    (∀ p0 p1, edgeTestStrict input p0 p1 = edgeTest input p0 p1) ∧
    (∀ ip1, ∃ ret, findPolygonGapCloser pl input ip1 = .ok ret) := by
  obtain ⟨r, hr⟩ := findPolygonPointClosestTo_ok pl input hne
  refine ⟨⟨r, hr, ?_⟩, fun p0 p1 => edgeTestStrict_eq input p0 p1, ?_⟩
  · intro hf
    have hf0 : 0 ≤ r.polygonIdx := hf
    obtain ⟨poly, hget, hlt, _⟩ := findPolygonPointClosestTo_found pl input r hr hf0
    refine ⟨?_, poly, hget, hlt⟩
    have hlen : r.polygonIdx.toNat < pl.length := by
      by_contra hge
      rw [List.get?_eq_none.2 (by omega)] at hget
      simp at hget
    omega
  · intro ip1
    obtain ⟨c2, h2⟩ := findPolygonPointClosestTo_ok pl ip1 hne
    exact findPolygonGapCloser_ok pl input ip1 r c2 hr h2

/-- Instance of C13 on the square, whose only polygon has four points, for the
query (500,0). -/
theorem findPolygonPointClosestTo_safe_witness :
    (∃ r, findPolygonPointClosestTo square ⟨500, 0⟩ = .ok r ∧
      (r.found → r.polygonIdx < (square.length : Int) ∧
        ∃ poly, square.get? r.polygonIdx.toNat = some poly ∧ r.pointIdx < poly.length)) ∧
    (∀ p0 p1, edgeTestStrict ⟨500, 0⟩ p0 p1 = edgeTest ⟨500, 0⟩ p0 p1) ∧
    (∀ ip1, ∃ ret, findPolygonGapCloser square ⟨500, 0⟩ ip1 = .ok ret) :=
  findPolygonPointClosestTo_safe square ⟨500, 0⟩ (by decide)

/-! ## Termination of the walking loops -/

theorem walkTrace_arc (size stop : Nat) :
    ∀ (m fuel i : Nat), i < size → m ≤ fuel →
    (∀ j, j < m → (i + j) % size ≠ stop) → (i + m) % size = stop →
    walkTrace size stop fuel i = .ok ((List.range m).map (fun k => (i + k) % size)) := by
  intro m
  induction m with
  | zero =>
    intro fuel i hi _ _ hstop
    have hEq : i = stop := by
      rw [Nat.add_zero, Nat.mod_eq_of_lt hi] at hstop
      exact hstop
    cases fuel <;> simp [walkTrace, hEq]
  | succ m ih =>
    intro fuel i hi hfuel hne hstop
    have hi0 : i ≠ stop := by
      have := hne 0 (by omega)
      rwa [Nat.add_zero, Nat.mod_eq_of_lt hi] at this
    obtain ⟨fuel, rfl⟩ : ∃ f, fuel = f + 1 := ⟨fuel - 1, by omega⟩
    have hlt : (i + 1) % size < size := Nat.mod_lt _ (by omega)
    unfold walkTrace
    simp only [hi0, if_false]
    rw [ih fuel ((i + 1) % size) hlt (by omega)
      (fun j hj => by
        rw [Nat.mod_add_mod, Nat.add_assoc, Nat.add_comm 1 j]
        exact hne (j + 1) (by omega))
      (by rw [Nat.mod_add_mod, Nat.add_assoc, Nat.add_comm 1 m]; exact hstop)]
    simp only [Except.ok.injEq]
    rw [List.range_succ_eq_map]
    simp only [List.map_cons, List.map_map, Nat.add_zero, Nat.mod_eq_of_lt hi]
    congr 1
    apply List.map_congr_left
    intro k _
    simp only [Function.comp, Nat.mod_add_mod]
    congr 1
    omega

theorem rotation_perm (n A : Nat) :
    ((List.range n).map (fun k => (A + k) % n)).Perm (List.range n) := by
  have hnodup : ((List.range n).map (fun k => (A + k) % n)).Nodup := by
    apply List.Nodup.map_on _ (List.nodup_range n)
    intro x hx y hy hxy
    have hx1 : x < n := List.mem_range.1 hx
    have hy1 : y < n := List.mem_range.1 hy
    have hmod : A + x ≡ A + y [MOD n] := hxy
    exact Nat.ModEq.eq_of_lt_of_lt (Nat.ModEq.add_left_cancel' A hmod) hx1 hy1
  have hsub : (List.range n).map (fun k => (A + k) % n) ⊆ List.range n := by
    intro a ha
    obtain ⟨k, hk, rfl⟩ := List.mem_map.1 ha
    have hk1 : k < n := List.mem_range.1 hk
    exact List.mem_range.2 (Nat.mod_lt _ (by omega))
  exact (List.subperm_of_subset hnodup hsub).perm_of_length_le (by simp)

theorem walkTrace_cover (n A B : Nat) (hA : A < n) (hB : B < n) (hAB : A ≠ B) :
    (List.range ((B + n - A) % n)).map (fun k => (A + k) % n) ++
        (List.range ((A + n - B) % n)).map (fun k => (B + k) % n) =
      (List.range n).map (fun k => (A + k) % n) := by
  obtain ⟨hmA, _, hreach, _⟩ := arcSteps_spec n A B hA hB
  obtain ⟨hmB, _⟩ := arcSteps_spec n B A hB hA
  have hsum : (B + n - A) % n + (A + n - B) % n = n := by
    rw [hmA, hmB]
    unfold stepsTo
    split <;> split <;> omega
  have hrange : List.range n =
      List.range ((B + n - A) % n) ++
        (List.range ((A + n - B) % n)).map (fun k => (B + n - A) % n + k) := by
    rw [← List.range_add, hsum]
  rw [hrange, List.map_append, List.map_map]
  congr 1
  apply List.map_congr_left
  intro k _
  simp only [Function.comp]
  rw [← Nat.add_assoc, ← Nat.mod_add_mod (A + (B + n - A) % n), hreach]

/-- C14: the two vertex-walking loops terminate.  In a polygon of size `n` with
`A, B < n`, the loop from `A` runs its body at `i = A, (A+1) mod n, ...`, exactly
`(B - A) mod n` times, fewer than `n`, and reaches `B` then and not before; likewise
from `B` to `A`; the walk of the source reads exactly these vertices and returns;
and when `A != B` the two loops together visit every index below `n` exactly once. -/
theorem walk_terminates (poly : List Point) (A B : Nat)
    (hA : A < poly.length) (hB : B < poly.length) :
    (walkTrace poly.length B poly.length A =
        .ok ((List.range ((B + poly.length - A) % poly.length)).map
          (fun k => (A + k) % poly.length)) ∧
      walkTrace poly.length A poly.length B =
        .ok ((List.range ((A + poly.length - B) % poly.length)).map
          (fun k => (B + k) % poly.length))) ∧
    ((B + poly.length - A) % poly.length < poly.length ∧
      (A + poly.length - B) % poly.length < poly.length) ∧
    ((A + (B + poly.length - A) % poly.length) % poly.length = B ∧
      ∀ j, j < (B + poly.length - A) % poly.length → (A + j) % poly.length ≠ B) ∧
    ((B + (A + poly.length - B) % poly.length) % poly.length = A ∧
      ∀ j, j < (A + poly.length - B) % poly.length → (B + j) % poly.length ≠ A) ∧
    (∀ p0 len, walk poly B poly.length A p0 len =
      .ok ((arcVertices poly A ((B + poly.length - A) % poly.length)).getLastD p0,
        len + chainLen (p0 :: arcVertices poly A ((B + poly.length - A) % poly.length)))) ∧
    (∀ p0 len, walk poly A poly.length B p0 len =
      .ok ((arcVertices poly B ((A + poly.length - B) % poly.length)).getLastD p0,
        len + chainLen (p0 :: arcVertices poly B ((A + poly.length - B) % poly.length)))) ∧
    (A ≠ B →
      ((List.range ((B + poly.length - A) % poly.length)).map
          (fun k => (A + k) % poly.length) ++
        (List.range ((A + poly.length - B) % poly.length)).map
          (fun k => (B + k) % poly.length)).Perm (List.range poly.length)) := by
  obtain ⟨_, hltA, hreachA, hfirstA, _⟩ := arcSteps_spec poly.length A B hA hB
  obtain ⟨_, hltB, hreachB, hfirstB, _⟩ := arcSteps_spec poly.length B A hB hA
  refine ⟨⟨?_, ?_⟩, ⟨hltA, hltB⟩, ⟨hreachA, hfirstA⟩, ⟨hreachB, hfirstB⟩, ?_, ?_, ?_⟩
  · exact walkTrace_arc poly.length B _ poly.length A hA (Nat.le_of_lt hltA) hfirstA hreachA
  · exact walkTrace_arc poly.length A _ poly.length B hB (Nat.le_of_lt hltB) hfirstB hreachB
  · intro p0 len
    exact walk_arc poly B _ poly.length A p0 len hA (Nat.le_of_lt hltA) hfirstA hreachA
  · intro p0 len
    exact walk_arc poly A _ poly.length B p0 len hB (Nat.le_of_lt hltB) hfirstB hreachB
  · intro hAB
    rw [walkTrace_cover poly.length A B hA hB hAB]
    exact rotation_perm poly.length A

/-- Instance of C14 on the square: the loop from 1 to 3 visits 1, 2 and the loop
from 3 to 1 visits 3, 0. -/
theorem walk_terminates_witness :
    walkTrace squarePoly.length 3 squarePoly.length 1 =
        .ok ((List.range ((3 + squarePoly.length - 1) % squarePoly.length)).map
          (fun k => (1 + k) % squarePoly.length)) ∧
      walkTrace squarePoly.length 1 squarePoly.length 3 =
        .ok ((List.range ((1 + squarePoly.length - 3) % squarePoly.length)).map
          (fun k => (3 + k) % squarePoly.length)) :=
  (walk_terminates squarePoly 1 3 (by decide) (by decide)).1

/-- The two loops of the instance above, index by index. -/
theorem square_walk_traces :
    walkTrace 4 3 4 1 = .ok [1, 2] ∧ walkTrace 4 1 4 3 = .ok [3, 0] ∧
      walk squarePoly 3 4 1 ⟨1000, 0⟩ 500 = .ok (⟨1000, 1000⟩, 1500) := by
  decide

end cura
